import Mathlib

/-!
Shallow embedding of the HiveServer2 result-set codec (`be/src/service/hs2-util.cc`).

The codec converts typed, nullable scalar values into two wire layouts:
a columnar layout (a value array plus a packed LSB-first null bitmap per
column, protocol V6+) and a legacy per-row tagged-union layout (V1-V5),
plus a diagnostic printer for legacy values.

Modelling conventions:
- C++ `std::string` null bitmaps become `List Nat`, one `Nat` per byte
  (values kept below 256 by construction: bytes start at 0 and only bits
  0..7 are OR'd in).
- `std::vector<T>` value arrays become `List` of the element type.
- Fixed-width integer payloads (int8/int16/int32/int64) are carried as
  `Int`; the codec only copies them, never computes with them.
- Floating-point payloads are carried as opaque bit-pattern carriers of
  type `Int`; the float-to-double widening performed by the codec is an
  exact, injective conversion on payloads, modelled as the identity on
  the carrier (`floatToDouble`).
- The external timestamp and decimal text formatters (`RawValue::PrintValue`,
  `DecimalValue::ToString`) are opaque render-to-text collaborators and are
  passed in as function parameters (`RenderEnv`).
- A raw `const void*` value pointer (null meaning SQL NULL) becomes
  `Option EVal`; the per-type `reinterpret_cast` reads become total
  projections out of `EVal` whose result is meaningful exactly when the
  payload constructor matches the column type, mirroring the cast's
  precondition.
-/

/-- Size in bytes required by a null bitmap covering `numVals` rows
(`GetNullsRequiredSize` in the source): the ceiling of `numVals / 8`. -/
def GetNullsRequiredSize (numVals : Nat) : Nat :=
  (numVals + 7) / 8

/-- Resize of a list to exactly `n` elements in the C++ `resize` sense:
keeps the first `min n length` existing elements, fills the rest
with `dflt`, truncates when `n` is below the current length. -/
def listResize (l : List α) (n : Nat) (dflt : α) : List α :=
  l.take n ++ List.replicate (n - l.length) dflt

/-- Resize a null bitmap for `newSize` rows (`SetNullsSize` in the source):
`nulls->resize(GetNullsRequiredSize(new_size))`, zero-filling new bytes. -/
def SetNullsSize (newSize : Nat) (nulls : List Nat) : List Nat :=
  listResize nulls (GetNullsRequiredSize newSize) 0

/-- Streaming null-bit append (`SetNullBit` in the source): when
`row_idx % 8 == 0` a fresh zero byte is appended, then bit `row_idx % 8`
of byte `row_idx / 8` is OR'd with `is_null`. -/
def SetNullBit (rowIdx : Nat) (isNull : Bool) (nulls : List Nat) : List Nat :=
  let nulls1 := if rowIdx % 8 == 0 then nulls ++ [0] else nulls
  nulls1.set (rowIdx / 8)
    (nulls1.getD (rowIdx / 8) 0 ||| (1 <<< (rowIdx % 8)) * (if isNull then 1 else 0))

/-- Non-resizing null-bit write (`SetNullBitNoResize` in the source):
bit `row_idx % 8` of byte `row_idx / 8` is OR'd with `is_null`; the
bitmap must already cover the row. -/
def SetNullBitNoResize (rowIdx : Nat) (isNull : Bool) (nulls : List Nat) : List Nat :=
  nulls.set (rowIdx / 8)
    (nulls.getD (rowIdx / 8) 0 ||| (1 <<< (rowIdx % 8)) * (if isNull then 1 else 0))

/-- Null-bit read (`GetNullBit` in the source): test of bit `row_idx % 8`
of byte `row_idx / 8`. -/
def GetNullBit (nulls : List Nat) (rowIdx : Nat) : Bool :=
  nulls.getD (rowIdx / 8) 0 &&& (1 <<< (rowIdx % 8)) != 0

/-- Bulk bitmap range copy (`StitchNulls` in the source): copies
`numRowsAdded` bits of `src`, starting at source bit `startIdx`, onto the
end of `dst` (which holds `numRowsBefore` valid bits), one bit at a time
through the streaming appender. -/
def StitchNulls (numRowsBefore numRowsAdded startIdx : Nat)
    (src : List Nat) (dst : List Nat) : List Nat :=
  (List.range numRowsAdded).foldl
    (fun acc i => SetNullBit (numRowsBefore + i) (GetNullBit src (i + startIdx)) acc) dst

/-- Driver for the streaming mode of the bitmap: appends the bits `bs`
one at a time via `SetNullBit`, at consecutive row indices starting at
`start`. -/
def appendBits (nulls : List Nat) (start : Nat) : List Bool → List Nat
  | [] => nulls
  | b :: bs => appendBits (SetNullBit start b nulls) (start + 1) bs

/-- Driver for an arbitrary interleaving of the two bit-write entry points
at one fixed row index `i`: each element `(useAppend, b)` performs
`SetNullBit i b` when `useAppend` is true and `SetNullBitNoResize i b`
otherwise. -/
def orWrites (i : Nat) (nulls : List Nat) : List (Bool × Bool) → List Nat
  | [] => nulls
  | w :: ws =>
      orWrites i (if w.1 then SetNullBit i w.2 nulls else SetNullBitNoResize i w.2 nulls) ws

/-- Scalar type tags of the codec's closed type set (`TPrimitiveType`
values handled by the source's switches). -/
inductive TPrimitiveType where
  | NULL_TYPE | BOOLEAN | TINYINT | SMALLINT | INT | BIGINT
  | FLOAT | DOUBLE | TIMESTAMP | STRING | VARCHAR | CHAR | DECIMAL
deriving DecidableEq, Repr

/-- Column type descriptor (`TColumnType` restricted to one scalar node):
the scalar type tag, the fixed width `len` for char columns, and the
physical byte width selected by the decimal's precision
(`ColumnType::FromThrift` + `GetByteSize` in the source). -/
structure TTypeDesc where
  ptype : TPrimitiveType
  len : Nat
  decimalBytes : Nat
deriving DecidableEq, Repr

/-- Typed payload behind a non-null `const void*` expression value. The
constructor records which C++ type the pointed-to storage holds; the
per-type `reinterpret_cast` reads are the projections below. Timestamp
and decimal payloads are opaque carriers consumed only by the external
text formatters. -/
inductive EVal where
  | vBool (b : Bool)
  | vI8 (n : Int)
  | vI16 (n : Int)
  | vI32 (n : Int)
  | vI64 (n : Int)
  | vF32 (x : Int)
  | vF64 (x : Int)
  | vTs (t : Int)
  | vStr (s : String)
  | vChar (cs : List Char)
  | vDec (d : Int)
deriving DecidableEq, Repr

/-- Read of `*reinterpret_cast<const bool*>`: meaningful when the payload
is a bool. -/
def EVal.asBool : EVal → Bool
  | .vBool b => b
  | _ => false

/-- Read of `*reinterpret_cast<const int8_t*>`. -/
def EVal.asI8 : EVal → Int
  | .vI8 n => n
  | _ => 0

/-- Read of `*reinterpret_cast<const int16_t*>`. -/
def EVal.asI16 : EVal → Int
  | .vI16 n => n
  | _ => 0

/-- Read of `*reinterpret_cast<const int32_t*>`. -/
def EVal.asI32 : EVal → Int
  | .vI32 n => n
  | _ => 0

/-- Read of `*reinterpret_cast<const int64_t*>`. -/
def EVal.asI64 : EVal → Int
  | .vI64 n => n
  | _ => 0

/-- Read of `*reinterpret_cast<const float*>` (bit-pattern carrier). -/
def EVal.asF32 : EVal → Int
  | .vF32 x => x
  | _ => 0

/-- Read of `*reinterpret_cast<const double*>` (bit-pattern carrier). -/
def EVal.asF64 : EVal → Int
  | .vF64 x => x
  | _ => 0

/-- Read of a timestamp slot (opaque carrier). -/
def EVal.asTs : EVal → Int
  | .vTs t => t
  | _ => 0

/-- Read of a `StringValue` slot: the referenced byte span as a string. -/
def EVal.asStr : EVal → String
  | .vStr s => s
  | _ => ""

/-- Read of a char(N) slot through `StringValue::CharSlotToPtr`: the
characters stored in the fixed-width slot. -/
def EVal.asChar : EVal → List Char
  | .vChar cs => cs
  | _ => []

/-- Read of a decimal slot (opaque carrier rendered by `ToString`). -/
def EVal.asDec : EVal → Int
  | .vDec d => d
  | _ => 0

/-- Float-to-double widening applied when a float value is stored into a
double destination. On actual floats this conversion is exact and
injective; on the opaque bit-pattern carrier it is the identity. -/
def floatToDouble (x : Int) : Int := x

/-- External render-to-text collaborators: the timestamp formatter
(`RawValue::PrintValue` at `TYPE_TIMESTAMP`) and the decimal formatters
(`Decimal{4,8,16}Value::ToString`, keyed by physical byte width). -/
structure RenderEnv where
  tsFmt : Int → String
  decFmt : Nat → Int → String

/-- Impala-side row value record (`impala::TColumnValue`): one optional
field per wire type; `isset_x` is the Thrift `__isset.x` flag and the
payload field keeps its residual contents when the flag is clear. -/
structure TColumnValue where
  isset_bool : Bool
  bool_val : Bool
  isset_byte : Bool
  byte_val : Int
  isset_short : Bool
  short_val : Int
  isset_int : Bool
  int_val : Int
  isset_long : Bool
  long_val : Int
  isset_double : Bool
  double_val : Int
  isset_string : Bool
  string_val : String
deriving DecidableEq, Repr

/-- Default-constructed `impala::TColumnValue`: all flags clear, payloads
at their Thrift zero values. -/
def TColumnValue.init : TColumnValue :=
  ⟨false, false, false, 0, false, 0, false, 0, false, 0, false, 0, false, ""⟩

/-- One typed sub-column of the columnar HS2 `TColumn`: its value array
and its packed null bitmap. -/
structure TBaseColumn (α : Type) where
  values : List α
  nulls : List Nat
deriving DecidableEq, Repr

/-- Columnar HS2 destination (`thrift::TColumn`): one value-array/bitmap
pair per wire type family. -/
structure TColumn where
  boolVal : TBaseColumn Bool
  byteVal : TBaseColumn Int
  i16Val : TBaseColumn Int
  i32Val : TBaseColumn Int
  i64Val : TBaseColumn Int
  doubleVal : TBaseColumn Int
  stringVal : TBaseColumn String
deriving DecidableEq, Repr

/-- Fresh columnar destination: every value array and bitmap empty. -/
def TColumn.empty : TColumn :=
  ⟨⟨[], []⟩, ⟨[], []⟩, ⟨[], []⟩, ⟨[], []⟩, ⟨[], []⟩, ⟨[], []⟩, ⟨[], []⟩⟩

/-- One variant of the legacy HS2 tagged value: its value-presence flag
(`__isset.value`) and its payload. -/
structure TVariantVal (α : Type) where
  isset_value : Bool
  value : α
deriving DecidableEq, Repr

/-- Legacy HS2 tagged value (`thrift::TColumnValue`): one
variant-selected flag (`__isset.x`) plus a presence flag and payload per
variant. -/
structure HS2TColumnValue where
  isset_boolVal : Bool
  boolVal : TVariantVal Bool
  isset_byteVal : Bool
  byteVal : TVariantVal Int
  isset_i16Val : Bool
  i16Val : TVariantVal Int
  isset_i32Val : Bool
  i32Val : TVariantVal Int
  isset_i64Val : Bool
  i64Val : TVariantVal Int
  isset_doubleVal : Bool
  doubleVal : TVariantVal Int
  isset_stringVal : Bool
  stringVal : TVariantVal String
deriving DecidableEq, Repr

/-- Default-constructed legacy HS2 tagged value: no variant selected, no
value present, payloads at their Thrift zero values. -/
def HS2TColumnValue.init : HS2TColumnValue :=
  ⟨false, ⟨false, false⟩, false, ⟨false, 0⟩, false, ⟨false, 0⟩, false, ⟨false, 0⟩,
   false, ⟨false, 0⟩, false, ⟨false, 0⟩, false, ⟨false, ""⟩⟩

/-- Result of the C++ assignment of an `int64_t` to a `std::string`
element (the source's buggy string-family bulk branch): the integer is
narrowed to a single `char`, producing a one-character string. -/
def charOfLong (n : Int) : String :=
  String.mk [Char.ofNat (n % 256).toNat]

/-- Bulk fixed-width append (template `AddValues<S, T>` in the source):
resizes the value array and bitmap to cover `resultStartIdx + numVals`
rows, then per row reads the value (`getVal`, null pointer = `none`),
projects the `S` payload (`proj`), converts it to the destination type
(`cast`, the implicit `S`-to-`T` conversion), writes it (null rows get
`static_cast<S>(0)` converted), and records nullness with the
non-resizing bit writer. `dfltT` is the `T()` used by `vector::resize`. -/
def AddValues (getVal : Nat → Option EVal) (proj : EVal → σ) (cast : σ → τ)
    (zeroS : σ) (dfltT : τ) (result : List τ) (nulls : List Nat)
    (srcStartIdx resultStartIdx : Nat) (numVals : Nat) : List τ × List Nat :=
  let newSize := resultStartIdx + numVals
  (List.range numVals).foldl
    (fun acc k =>
      let v := getVal (srcStartIdx + k)
      (acc.1.set (resultStartIdx + k)
        (match v with
          | none => cast zeroS
          | some e => cast (proj e)),
       SetNullBitNoResize (resultStartIdx + k) v.isNone acc.2))
    (listResize result newSize dfltT, SetNullsSize newSize nulls)

/-- Bulk decimal append (template `AddDecimalValues<D>` in the source):
like `AddValues` but renders each present value to text with the
byte-width-specific formatter `toStr` and writes the empty string at
null rows. -/
def AddDecimalValues (getVal : Nat → Option EVal) (toStr : Int → String)
    (result : List String) (nulls : List Nat)
    (srcStartIdx resultStartIdx : Nat) (numVals : Nat) : List String × List Nat :=
  let newSize := resultStartIdx + numVals
  (List.range numVals).foldl
    (fun acc k =>
      let v := getVal (srcStartIdx + k)
      (acc.1.set (resultStartIdx + k)
        (match v with
          | none => ""
          | some e => toStr e.asDec),
       SetNullBitNoResize (resultStartIdx + k) v.isNone acc.2))
    (listResize result newSize "", SetNullsSize newSize nulls)

/-- Bulk timestamp append (`AddTimestampValues` in the source): present
values are rendered to text by the external formatter; null rows leave
the resize-produced slot contents untouched. -/
def AddTimestampValues (getVal : Nat → Option EVal) (tsFmt : Int → String)
    (result : List String) (nulls : List Nat)
    (srcStartIdx resultStartIdx : Nat) (numVals : Nat) : List String × List Nat :=
  let newSize := resultStartIdx + numVals
  (List.range numVals).foldl
    (fun acc k =>
      let v := getVal (srcStartIdx + k)
      (match v with
        | none => acc.1
        | some e => acc.1.set (resultStartIdx + k) (tsFmt e.asTs),
       SetNullBitNoResize (resultStartIdx + k) v.isNone acc.2))
    (listResize result newSize "", SetNullsSize newSize nulls)

/-- Bulk string/varchar append (`AddStringValues` in the source): the
byte span of a present `StringValue` is copied verbatim; null rows leave
the resize-produced slot contents untouched. -/
def AddStringValues (getVal : Nat → Option EVal)
    (result : List String) (nulls : List Nat)
    (srcStartIdx resultStartIdx : Nat) (numVals : Nat) : List String × List Nat :=
  let newSize := resultStartIdx + numVals
  (List.range numVals).foldl
    (fun acc k =>
      let v := getVal (srcStartIdx + k)
      (match v with
        | none => acc.1
        | some e => acc.1.set (resultStartIdx + k) e.asStr,
       SetNullBitNoResize (resultStartIdx + k) v.isNone acc.2))
    (listResize result newSize "", SetNullsSize newSize nulls)

/-- Bulk char(N) append (`AddCharValues` in the source): for a present
value, `assign(CharSlotToPtr(value, char_type), char_type.len)` copies
exactly `charLen` characters out of the fixed-width slot; null rows
leave the resize-produced slot contents untouched. -/
def AddCharValues (getVal : Nat → Option EVal) (charLen : Nat)
    (result : List String) (nulls : List Nat)
    (srcStartIdx resultStartIdx : Nat) (numVals : Nat) : List String × List Nat :=
  let newSize := resultStartIdx + numVals
  (List.range numVals).foldl
    (fun acc k =>
      let v := getVal (srcStartIdx + k)
      (match v with
        | none => acc.1
        | some e => acc.1.set (resultStartIdx + k) (String.mk (e.asChar.take charLen)),
       SetNullBitNoResize (resultStartIdx + k) v.isNone acc.2))
    (listResize result newSize "", SetNullsSize newSize nulls)

/-- Bulk columnar append from a live row batch and evaluator
(`ExprValuesToHS2TColumn` in the source, protocol V6+): dispatches per
type family to the matching `Add*` routine and destination sub-column.
An unsupported decimal byte width hits the `DCHECK` default and leaves
the column unchanged. -/
def ExprValuesToHS2TColumn (env : RenderEnv) (getVal : Nat → Option EVal)
    (ty : TTypeDesc) (srcStartIdx resultStartIdx : Nat) (numVals : Nat)
    (column : TColumn) : TColumn :=
  match ty.ptype with
  | .NULL_TYPE | .BOOLEAN =>
      let r := AddValues getVal EVal.asBool (fun b => b) false false
        column.boolVal.values column.boolVal.nulls srcStartIdx resultStartIdx numVals
      { column with boolVal := ⟨r.1, r.2⟩ }
  | .TINYINT =>
      let r := AddValues getVal EVal.asI8 (fun n => n) 0 0
        column.byteVal.values column.byteVal.nulls srcStartIdx resultStartIdx numVals
      { column with byteVal := ⟨r.1, r.2⟩ }
  | .SMALLINT =>
      let r := AddValues getVal EVal.asI16 (fun n => n) 0 0
        column.i16Val.values column.i16Val.nulls srcStartIdx resultStartIdx numVals
      { column with i16Val := ⟨r.1, r.2⟩ }
  | .INT =>
      let r := AddValues getVal EVal.asI32 (fun n => n) 0 0
        column.i32Val.values column.i32Val.nulls srcStartIdx resultStartIdx numVals
      { column with i32Val := ⟨r.1, r.2⟩ }
  | .BIGINT =>
      let r := AddValues getVal EVal.asI64 (fun n => n) 0 0
        column.i64Val.values column.i64Val.nulls srcStartIdx resultStartIdx numVals
      { column with i64Val := ⟨r.1, r.2⟩ }
  | .FLOAT =>
      let r := AddValues getVal EVal.asF32 floatToDouble 0 0
        column.doubleVal.values column.doubleVal.nulls srcStartIdx resultStartIdx numVals
      { column with doubleVal := ⟨r.1, r.2⟩ }
  | .DOUBLE =>
      let r := AddValues getVal EVal.asF64 (fun x => x) 0 0
        column.doubleVal.values column.doubleVal.nulls srcStartIdx resultStartIdx numVals
      { column with doubleVal := ⟨r.1, r.2⟩ }
  | .TIMESTAMP =>
      let r := AddTimestampValues getVal env.tsFmt
        column.stringVal.values column.stringVal.nulls srcStartIdx resultStartIdx numVals
      { column with stringVal := ⟨r.1, r.2⟩ }
  | .STRING | .VARCHAR =>
      let r := AddStringValues getVal
        column.stringVal.values column.stringVal.nulls srcStartIdx resultStartIdx numVals
      { column with stringVal := ⟨r.1, r.2⟩ }
  | .CHAR =>
      let r := AddCharValues getVal ty.len
        column.stringVal.values column.stringVal.nulls srcStartIdx resultStartIdx numVals
      { column with stringVal := ⟨r.1, r.2⟩ }
  | .DECIMAL =>
      match ty.decimalBytes with
      | 4 =>
          let r := AddDecimalValues getVal (env.decFmt 4)
            column.stringVal.values column.stringVal.nulls srcStartIdx resultStartIdx numVals
          { column with stringVal := ⟨r.1, r.2⟩ }
      | 8 =>
          let r := AddDecimalValues getVal (env.decFmt 8)
            column.stringVal.values column.stringVal.nulls srcStartIdx resultStartIdx numVals
          { column with stringVal := ⟨r.1, r.2⟩ }
      | 16 =>
          let r := AddDecimalValues getVal (env.decFmt 16)
            column.stringVal.values column.stringVal.nulls srcStartIdx resultStartIdx numVals
          { column with stringVal := ⟨r.1, r.2⟩ }
      | _ => column

/-- Single-row columnar append of an already-evaluated expression value
(`ExprValueToHS2TColumn` in the source, protocol V6+): pushes one value
(or the family's default for a null) onto the family's value array and
appends one bit to its null bitmap via the streaming bit appender. -/
def ExprValueToHS2TColumn (env : RenderEnv) (value : Option EVal)
    (ty : TTypeDesc) (rowIdx : Nat) (column : TColumn) : TColumn :=
  match ty.ptype with
  | .NULL_TYPE | .BOOLEAN =>
      { column with boolVal :=
          ⟨column.boolVal.values ++ [match value with | none => false | some e => e.asBool],
           SetNullBit rowIdx value.isNone column.boolVal.nulls⟩ }
  | .TINYINT =>
      { column with byteVal :=
          ⟨column.byteVal.values ++ [match value with | none => 0 | some e => e.asI8],
           SetNullBit rowIdx value.isNone column.byteVal.nulls⟩ }
  | .SMALLINT =>
      { column with i16Val :=
          ⟨column.i16Val.values ++ [match value with | none => 0 | some e => e.asI16],
           SetNullBit rowIdx value.isNone column.i16Val.nulls⟩ }
  | .INT =>
      { column with i32Val :=
          ⟨column.i32Val.values ++ [match value with | none => 0 | some e => e.asI32],
           SetNullBit rowIdx value.isNone column.i32Val.nulls⟩ }
  | .BIGINT =>
      { column with i64Val :=
          ⟨column.i64Val.values ++ [match value with | none => 0 | some e => e.asI64],
           SetNullBit rowIdx value.isNone column.i64Val.nulls⟩ }
  | .FLOAT =>
      { column with doubleVal :=
          ⟨column.doubleVal.values ++
             [match value with | none => 0 | some e => floatToDouble e.asF32],
           SetNullBit rowIdx value.isNone column.doubleVal.nulls⟩ }
  | .DOUBLE =>
      { column with doubleVal :=
          ⟨column.doubleVal.values ++ [match value with | none => 0 | some e => e.asF64],
           SetNullBit rowIdx value.isNone column.doubleVal.nulls⟩ }
  | .TIMESTAMP =>
      { column with stringVal :=
          ⟨column.stringVal.values ++
             [match value with | none => "" | some e => env.tsFmt e.asTs],
           SetNullBit rowIdx value.isNone column.stringVal.nulls⟩ }
  | .STRING | .VARCHAR =>
      { column with stringVal :=
          ⟨column.stringVal.values ++ [match value with | none => "" | some e => e.asStr],
           SetNullBit rowIdx value.isNone column.stringVal.nulls⟩ }
  | .CHAR =>
      { column with stringVal :=
          ⟨column.stringVal.values ++
             [match value with
               | none => ""
               | some e => String.mk (e.asChar.take ty.len)],
           SetNullBit rowIdx value.isNone column.stringVal.nulls⟩ }
  | .DECIMAL =>
      { column with stringVal :=
          ⟨column.stringVal.values ++
             [match value with
               | none => ""
               | some e =>
                   match ty.decimalBytes with
                   | 4 => env.decFmt 4 e.asDec
                   | 8 => env.decFmt 8 e.asDec
                   | 16 => env.decFmt 16 e.asDec
                   | _ => ""],
           SetNullBit rowIdx value.isNone column.stringVal.nulls⟩ }

/-- Single-row columnar append of a pre-decoded row value
(`TColumnValueToHS2TColumn` in the source, protocol V6+): pushes the
family's payload field onto the family's value array and appends one
null bit (set exactly when the field's `__isset` flag is clear) via the
streaming bit appender. -/
def TColumnValueToHS2TColumn (colVal : TColumnValue) (ty : TTypeDesc)
    (rowIdx : Nat) (column : TColumn) : TColumn :=
  match ty.ptype with
  | .NULL_TYPE | .BOOLEAN =>
      { column with boolVal :=
          ⟨column.boolVal.values ++ [colVal.bool_val],
           SetNullBit rowIdx (!colVal.isset_bool) column.boolVal.nulls⟩ }
  | .TINYINT =>
      { column with byteVal :=
          ⟨column.byteVal.values ++ [colVal.byte_val],
           SetNullBit rowIdx (!colVal.isset_byte) column.byteVal.nulls⟩ }
  | .SMALLINT =>
      { column with i16Val :=
          ⟨column.i16Val.values ++ [colVal.short_val],
           SetNullBit rowIdx (!colVal.isset_short) column.i16Val.nulls⟩ }
  | .INT =>
      { column with i32Val :=
          ⟨column.i32Val.values ++ [colVal.int_val],
           SetNullBit rowIdx (!colVal.isset_int) column.i32Val.nulls⟩ }
  | .BIGINT =>
      { column with i64Val :=
          ⟨column.i64Val.values ++ [colVal.long_val],
           SetNullBit rowIdx (!colVal.isset_long) column.i64Val.nulls⟩ }
  | .FLOAT | .DOUBLE =>
      { column with doubleVal :=
          ⟨column.doubleVal.values ++ [colVal.double_val],
           SetNullBit rowIdx (!colVal.isset_double) column.doubleVal.nulls⟩ }
  | .TIMESTAMP | .STRING | .CHAR | .VARCHAR | .DECIMAL =>
      { column with stringVal :=
          ⟨column.stringVal.values ++ [colVal.string_val],
           SetNullBit rowIdx (!colVal.isset_string) column.stringVal.nulls⟩ }

/-- Bulk columnar append of a contiguous range of pre-decoded row values
(`TColumnValuesToHS2TColumn` in the source, protocol V6+). Faithfully
reproduces the source, including its anomalies: every branch passes the
field's `__isset` flag directly (not its negation) to the non-resizing
bit writer, and the string-family branch writes `long_val` (narrowed to
one character by the `std::string` assignment) into `stringVal.values`
while sizing and writing the `i64Val` bitmap. -/
def TColumnValuesToHS2TColumn (colVals : List TColumnValue) (ty : TTypeDesc)
    (srcStartIdx resultStartIdx : Nat) (numVals : Nat)
    (column : TColumn) : TColumn :=
  let newSize := resultStartIdx + numVals
  match ty.ptype with
  | .NULL_TYPE | .BOOLEAN =>
      let st := (List.range numVals).foldl
        (fun acc k =>
          let v := colVals.getD (srcStartIdx + k) TColumnValue.init
          (acc.1.set (resultStartIdx + k) v.bool_val,
           SetNullBitNoResize (resultStartIdx + k) v.isset_bool acc.2))
        (listResize column.boolVal.values newSize false,
         SetNullsSize newSize column.boolVal.nulls)
      { column with boolVal := ⟨st.1, st.2⟩ }
  | .TINYINT =>
      let st := (List.range numVals).foldl
        (fun acc k =>
          let v := colVals.getD (srcStartIdx + k) TColumnValue.init
          (acc.1.set (resultStartIdx + k) v.byte_val,
           SetNullBitNoResize (resultStartIdx + k) v.isset_byte acc.2))
        (listResize column.byteVal.values newSize 0,
         SetNullsSize newSize column.byteVal.nulls)
      { column with byteVal := ⟨st.1, st.2⟩ }
  | .SMALLINT =>
      let st := (List.range numVals).foldl
        (fun acc k =>
          let v := colVals.getD (srcStartIdx + k) TColumnValue.init
          (acc.1.set (resultStartIdx + k) v.short_val,
           SetNullBitNoResize (resultStartIdx + k) v.isset_short acc.2))
        (listResize column.i16Val.values newSize 0,
         SetNullsSize newSize column.i16Val.nulls)
      { column with i16Val := ⟨st.1, st.2⟩ }
  | .INT =>
      let st := (List.range numVals).foldl
        (fun acc k =>
          let v := colVals.getD (srcStartIdx + k) TColumnValue.init
          (acc.1.set (resultStartIdx + k) v.int_val,
           SetNullBitNoResize (resultStartIdx + k) v.isset_int acc.2))
        (listResize column.i32Val.values newSize 0,
         SetNullsSize newSize column.i32Val.nulls)
      { column with i32Val := ⟨st.1, st.2⟩ }
  | .BIGINT =>
      let st := (List.range numVals).foldl
        (fun acc k =>
          let v := colVals.getD (srcStartIdx + k) TColumnValue.init
          (acc.1.set (resultStartIdx + k) v.long_val,
           SetNullBitNoResize (resultStartIdx + k) v.isset_long acc.2))
        (listResize column.i64Val.values newSize 0,
         SetNullsSize newSize column.i64Val.nulls)
      { column with i64Val := ⟨st.1, st.2⟩ }
  | .FLOAT | .DOUBLE =>
      let st := (List.range numVals).foldl
        (fun acc k =>
          let v := colVals.getD (srcStartIdx + k) TColumnValue.init
          (acc.1.set (resultStartIdx + k) v.double_val,
           SetNullBitNoResize (resultStartIdx + k) v.isset_double acc.2))
        (listResize column.doubleVal.values newSize 0,
         SetNullsSize newSize column.doubleVal.nulls)
      { column with doubleVal := ⟨st.1, st.2⟩ }
  | .TIMESTAMP | .STRING | .CHAR | .VARCHAR | .DECIMAL =>
      let st := (List.range numVals).foldl
        (fun acc k =>
          let v := colVals.getD (srcStartIdx + k) TColumnValue.init
          (acc.1.set (resultStartIdx + k) (charOfLong v.long_val),
           SetNullBitNoResize (resultStartIdx + k) v.isset_long acc.2))
        (listResize column.stringVal.values newSize "",
         SetNullsSize newSize column.i64Val.nulls)
      { column with
          stringVal := { column.stringVal with values := st.1 },
          i64Val := { column.i64Val with nulls := st.2 } }

/-- Legacy per-row conversion of a pre-decoded row value
(`TColumnValueToHS2TColumnValue` in the source, protocols V1-V5):
selects one variant by type family, copies the payload field (the
numeric and boolean variants copy unconditionally, the string variant
only when present) and sets the variant's presence flag from the source
field's `__isset` flag. The `NULL_TYPE` tag falls into the `DCHECK`
default and leaves the fresh record untouched. -/
def TColumnValueToHS2TColumnValue (colVal : TColumnValue) (ty : TTypeDesc) :
    HS2TColumnValue :=
  match ty.ptype with
  | .BOOLEAN =>
      { HS2TColumnValue.init with
          isset_boolVal := true,
          boolVal := ⟨colVal.isset_bool, colVal.bool_val⟩ }
  | .TINYINT =>
      { HS2TColumnValue.init with
          isset_byteVal := true,
          byteVal := ⟨colVal.isset_byte, colVal.byte_val⟩ }
  | .SMALLINT =>
      { HS2TColumnValue.init with
          isset_i16Val := true,
          i16Val := ⟨colVal.isset_short, colVal.short_val⟩ }
  | .INT =>
      { HS2TColumnValue.init with
          isset_i32Val := true,
          i32Val := ⟨colVal.isset_int, colVal.int_val⟩ }
  | .BIGINT =>
      { HS2TColumnValue.init with
          isset_i64Val := true,
          i64Val := ⟨colVal.isset_long, colVal.long_val⟩ }
  | .FLOAT | .DOUBLE =>
      { HS2TColumnValue.init with
          isset_doubleVal := true,
          doubleVal := ⟨colVal.isset_double, colVal.double_val⟩ }
  | .DECIMAL | .STRING | .TIMESTAMP | .VARCHAR | .CHAR =>
      { HS2TColumnValue.init with
          isset_stringVal := true,
          stringVal :=
            ⟨colVal.isset_string,
             if colVal.isset_string then colVal.string_val
             else HS2TColumnValue.init.stringVal.value⟩ }
  | .NULL_TYPE => HS2TColumnValue.init

/-- Legacy per-row conversion of an evaluated expression value
(`ExprValueToHS2TColumnValue` in the source, protocols V1-V5): selects
one variant by type family, sets its presence flag to non-nullness of
the value pointer, and copies the payload only when the value is
present. `NULL_TYPE` selects the boolean variant with its presence flag
always clear. -/
def ExprValueToHS2TColumnValue (env : RenderEnv) (value : Option EVal)
    (ty : TTypeDesc) : HS2TColumnValue :=
  match ty.ptype with
  | .NULL_TYPE =>
      { HS2TColumnValue.init with
          isset_boolVal := true,
          boolVal := { HS2TColumnValue.init.boolVal with isset_value := false } }
  | .BOOLEAN =>
      { HS2TColumnValue.init with
          isset_boolVal := true,
          boolVal :=
            ⟨value.isSome,
             match value with
              | none => HS2TColumnValue.init.boolVal.value
              | some e => e.asBool⟩ }
  | .TINYINT =>
      { HS2TColumnValue.init with
          isset_byteVal := true,
          byteVal :=
            ⟨value.isSome,
             match value with
              | none => HS2TColumnValue.init.byteVal.value
              | some e => e.asI8⟩ }
  | .SMALLINT =>
      { HS2TColumnValue.init with
          isset_i16Val := true,
          i16Val :=
            ⟨value.isSome,
             match value with
              | none => HS2TColumnValue.init.i16Val.value
              | some e => e.asI16⟩ }
  | .INT =>
      { HS2TColumnValue.init with
          isset_i32Val := true,
          i32Val :=
            ⟨value.isSome,
             match value with
              | none => HS2TColumnValue.init.i32Val.value
              | some e => e.asI32⟩ }
  | .BIGINT =>
      { HS2TColumnValue.init with
          isset_i64Val := true,
          i64Val :=
            ⟨value.isSome,
             match value with
              | none => HS2TColumnValue.init.i64Val.value
              | some e => e.asI64⟩ }
  | .FLOAT =>
      { HS2TColumnValue.init with
          isset_doubleVal := true,
          doubleVal :=
            ⟨value.isSome,
             match value with
              | none => HS2TColumnValue.init.doubleVal.value
              | some e => floatToDouble e.asF32⟩ }
  | .DOUBLE =>
      { HS2TColumnValue.init with
          isset_doubleVal := true,
          doubleVal :=
            ⟨value.isSome,
             match value with
              | none => HS2TColumnValue.init.doubleVal.value
              | some e => e.asF64⟩ }
  | .STRING | .VARCHAR =>
      { HS2TColumnValue.init with
          isset_stringVal := true,
          stringVal :=
            ⟨value.isSome,
             match value with
              | none => HS2TColumnValue.init.stringVal.value
              | some e => e.asStr⟩ }
  | .CHAR =>
      { HS2TColumnValue.init with
          isset_stringVal := true,
          stringVal :=
            ⟨value.isSome,
             match value with
              | none => HS2TColumnValue.init.stringVal.value
              | some e => String.mk (e.asChar.take ty.len)⟩ }
  | .TIMESTAMP =>
      { HS2TColumnValue.init with
          isset_stringVal := true,
          stringVal :=
            ⟨value.isSome,
             match value with
              | none => HS2TColumnValue.init.stringVal.value
              | some e => env.tsFmt e.asTs⟩ }
  | .DECIMAL =>
      { HS2TColumnValue.init with
          isset_stringVal := true,
          stringVal :=
            ⟨value.isSome,
             match value with
              | none => HS2TColumnValue.init.stringVal.value
              | some e =>
                  match ty.decimalBytes with
                  | 4 => env.decFmt 4 e.asDec
                  | 8 => env.decFmt 8 e.asDec
                  | 16 => env.decFmt 16 e.asDec
                  | _ => HS2TColumnValue.init.stringVal.value⟩ }

/-- Variant renderer (template `PrintVal<T>` in the source): renders the
payload through the stream's formatting (`render`) when the value is
present, the literal `NULL` otherwise. The byte specialisation
instantiates `render` with decimal numeral formatting after the
`int16_t` widening. -/
def PrintVal (render : α → String) (v : TVariantVal α) : String :=
  if v.isset_value then render v.value else "NULL"

/-- Legacy value printer (`PrintTColumnValue` in the source): tests the
variant-selected flags in the order boolean, double, byte, int32,
int16, int64, text and renders the first selected variant; emits `NULL`
when nothing is selected. `showDouble` is the host stream's double
formatting. -/
def PrintTColumnValue (showDouble : Int → String) (colval : HS2TColumnValue) :
    String :=
  if colval.isset_boolVal then
    if colval.boolVal.isset_value then
      if colval.boolVal.value then "true" else "false"
    else "NULL"
  else if colval.isset_doubleVal then PrintVal showDouble colval.doubleVal
  else if colval.isset_byteVal then PrintVal (fun n => toString n) colval.byteVal
  else if colval.isset_i32Val then PrintVal (fun n => toString n) colval.i32Val
  else if colval.isset_i16Val then PrintVal (fun n => toString n) colval.i16Val
  else if colval.isset_i64Val then PrintVal (fun n => toString n) colval.i64Val
  else if colval.isset_stringVal then PrintVal (fun s => s) colval.stringVal
  else "NULL"

/-- Wire variant tags of the legacy tagged value and of the columnar
sub-columns. -/
inductive VariantTag where
  | boolT | byteT | i16T | i32T | i64T | doubleT | stringT
deriving DecidableEq, Repr

/-- Heterogeneous payload representative used to compare values across
differently-typed variants and sub-columns. -/
inductive PayloadV where
  | pb (b : Bool)
  | pi (n : Int)
  | ps (s : String)
deriving DecidableEq, Repr

/-- Family-to-variant map of the LEGACY converters as the spec states
it: decimal, timestamp, char and varchar collapse into the text
variant, float collapses into the double variant, and `NULL_TYPE` has
no family. -/
def familyVariant : TPrimitiveType → Option VariantTag
  | .NULL_TYPE => none
  | .BOOLEAN => some .boolT
  | .TINYINT => some .byteT
  | .SMALLINT => some .i16T
  | .INT => some .i32T
  | .BIGINT => some .i64T
  | .FLOAT => some .doubleT
  | .DOUBLE => some .doubleT
  | .TIMESTAMP => some .stringT
  | .STRING => some .stringT
  | .VARCHAR => some .stringT
  | .CHAR => some .stringT
  | .DECIMAL => some .stringT

/-- Family-to-sub-column map of the COLUMNAR appenders as the spec
states it; `NULL_TYPE` is routed through the boolean branch. -/
def columnVariant : TPrimitiveType → VariantTag
  | .NULL_TYPE => .boolT
  | .BOOLEAN => .boolT
  | .TINYINT => .byteT
  | .SMALLINT => .i16T
  | .INT => .i32T
  | .BIGINT => .i64T
  | .FLOAT => .doubleT
  | .DOUBLE => .doubleT
  | .TIMESTAMP => .stringT
  | .STRING => .stringT
  | .VARCHAR => .stringT
  | .CHAR => .stringT
  | .DECIMAL => .stringT

/-- Value array of one sub-column of a columnar destination, viewed
through the heterogeneous payload representative. -/
def TColumn.famValues (t : VariantTag) (c : TColumn) : List PayloadV :=
  match t with
  | .boolT => c.boolVal.values.map .pb
  | .byteT => c.byteVal.values.map .pi
  | .i16T => c.i16Val.values.map .pi
  | .i32T => c.i32Val.values.map .pi
  | .i64T => c.i64Val.values.map .pi
  | .doubleT => c.doubleVal.values.map .pi
  | .stringT => c.stringVal.values.map .ps

/-- Null bitmap of one sub-column of a columnar destination. -/
def TColumn.famNulls (t : VariantTag) (c : TColumn) : List Nat :=
  match t with
  | .boolT => c.boolVal.nulls
  | .byteT => c.byteVal.nulls
  | .i16T => c.i16Val.nulls
  | .i32T => c.i32Val.nulls
  | .i64T => c.i64Val.nulls
  | .doubleT => c.doubleVal.nulls
  | .stringT => c.stringVal.nulls

/-- Zero/empty placeholder a null row leaves in the value array of each
family: false for booleans, zero for the numeric carriers, the empty
string for the text family. -/
def placeholderRepr : VariantTag → PayloadV
  | .boolT => .pb false
  | .byteT => .pi 0
  | .i16T => .pi 0
  | .i32T => .pi 0
  | .i64T => .pi 0
  | .doubleT => .pi 0
  | .stringT => .ps ""

/-- Variant-selected flag of a legacy tagged value, per variant. -/
def HS2TColumnValue.flag (t : VariantTag) (r : HS2TColumnValue) : Bool :=
  match t with
  | .boolT => r.isset_boolVal
  | .byteT => r.isset_byteVal
  | .i16T => r.isset_i16Val
  | .i32T => r.isset_i32Val
  | .i64T => r.isset_i64Val
  | .doubleT => r.isset_doubleVal
  | .stringT => r.isset_stringVal

/-- Value-presence flag of a legacy tagged value's variant. -/
def HS2TColumnValue.presence (t : VariantTag) (r : HS2TColumnValue) : Bool :=
  match t with
  | .boolT => r.boolVal.isset_value
  | .byteT => r.byteVal.isset_value
  | .i16T => r.i16Val.isset_value
  | .i32T => r.i32Val.isset_value
  | .i64T => r.i64Val.isset_value
  | .doubleT => r.doubleVal.isset_value
  | .stringT => r.stringVal.isset_value

/-- Payload field of a legacy tagged value's variant, viewed through the
heterogeneous payload representative. -/
def HS2TColumnValue.payload (t : VariantTag) (r : HS2TColumnValue) : PayloadV :=
  match t with
  | .boolT => .pb r.boolVal.value
  | .byteT => .pi r.byteVal.value
  | .i16T => .pi r.i16Val.value
  | .i32T => .pi r.i32Val.value
  | .i64T => .pi r.i64Val.value
  | .doubleT => .pi r.doubleVal.value
  | .stringT => .ps r.stringVal.value

/-- Presence (`__isset`) of the source field an Impala `TColumnValue`
supplies for a given wire variant. -/
def TColumnValue.srcPresence (t : VariantTag) (cv : TColumnValue) : Bool :=
  match t with
  | .boolT => cv.isset_bool
  | .byteT => cv.isset_byte
  | .i16T => cv.isset_short
  | .i32T => cv.isset_int
  | .i64T => cv.isset_long
  | .doubleT => cv.isset_double
  | .stringT => cv.isset_string

/-- Payload of the source field an Impala `TColumnValue` supplies for a
given wire variant, viewed through the payload representative. -/
def TColumnValue.srcPayload (t : VariantTag) (cv : TColumnValue) : PayloadV :=
  match t with
  | .boolT => .pb cv.bool_val
  | .byteT => .pi cv.byte_val
  | .i16T => .pi cv.short_val
  | .i32T => .pi cv.int_val
  | .i64T => .pi cv.long_val
  | .doubleT => .pi cv.double_val
  | .stringT => .ps cv.string_val

theorem set_getD_id (l : List α) (n : Nat) (d : α) : l.set n (l.getD n d) = l := by
  induction l generalizing n with
  | nil => simp
  | cons a t ih =>
    cases n with
    | zero => simp [List.getD_cons_zero]
    | succ m => simpa [List.getD_cons_succ] using ih m

theorem getD_set_self (l : List α) (n : Nat) (v d : α) (h : n < l.length) :
    (l.set n v).getD n d = v := by
  simp [List.getD_eq_getElem?_getD, List.getElem?_set, h]

theorem getD_set_other (l : List α) (n m : Nat) (v d : α) (h : n ≠ m) :
    (l.set n v).getD m d = l.getD m d := by
  simp [List.getD_eq_getElem?_getD, List.getElem?_set, h]

theorem getD_replicate_self (m t : Nat) (d : α) : (List.replicate m d).getD t d = d := by
  simp [List.getD_eq_getElem?_getD]

theorem length_listResize (l : List α) (n : Nat) (d : α) : (listResize l n d).length = n := by
  simp [listResize]
  omega

theorem getD_listResize (l : List α) (n j : Nat) (d : α) :
    (listResize l n d).getD j d = if j < n ∧ j < l.length then l.getD j d else d := by
  unfold listResize
  by_cases h1 : j < n ∧ j < l.length
  · rw [if_pos h1]
    have ht : j < (l.take n).length := by simp; omega
    rw [List.getD_append _ _ _ _ ht]
    rw [List.getD_eq_getElem _ _ ht, List.getD_eq_getElem _ _ h1.2]
    simp [List.getElem_take]
  · rw [if_neg h1]
    by_cases h2 : j < (l.take n).length
    · exfalso
      simp at h2
      omega
    · push_neg at h2
      rw [List.getD_append_right _ _ _ _ h2]
      exact getD_replicate_self _ _ _

theorem GetNullBit_eq_testBit (nulls : List Nat) (i : Nat) :
    GetNullBit nulls i = (nulls.getD (i / 8) 0).testBit (i % 8) := by
  unfold GetNullBit
  rw [Nat.shiftLeft_eq, one_mul, Nat.and_two_pow]
  cases h : (nulls.getD (i / 8) 0).testBit (i % 8) <;> simp [h]

theorem GetNullBit_SetNullBitNoResize (j : Nat) (b : Bool) (ns : List Nat) (i : Nat)
    (hcov : j / 8 < ns.length) :
    GetNullBit (SetNullBitNoResize j b ns) i = (GetNullBit ns i || (b && i == j)) := by
  rw [GetNullBit_eq_testBit, GetNullBit_eq_testBit]
  unfold SetNullBitNoResize
  by_cases hb : i / 8 = j / 8
  · rw [hb, getD_set_self _ _ _ _ hcov]
    rw [Nat.shiftLeft_eq, one_mul]
    cases b with
    | false => simp
    | true =>
      rw [if_pos rfl, mul_one, Nat.testBit_lor, Nat.testBit_two_pow]
      by_cases hij : i = j
      · subst hij
        simp
      · have hmod : ¬ (j % 8 = i % 8) := by
          intro hm
          apply hij
          omega
        simp [hmod, hij]
  · rw [getD_set_other _ _ _ _ _ (fun h => hb h.symm)]
    have hij : ¬ (i = j) := by
      intro h
      exact hb (by rw [h])
    simp [hij]

theorem length_SetNullBitNoResize (j : Nat) (b : Bool) (ns : List Nat) :
    (SetNullBitNoResize j b ns).length = ns.length := by
  simp [SetNullBitNoResize]

theorem SetNullBit_as_noResize (j : Nat) (b : Bool) (ns : List Nat) :
    SetNullBit j b ns = SetNullBitNoResize j b (if j % 8 == 0 then ns ++ [0] else ns) := rfl

theorem length_SetNullBit (j : Nat) (b : Bool) (ns : List Nat) :
    (SetNullBit j b ns).length = if j % 8 == 0 then ns.length + 1 else ns.length := by
  rw [SetNullBit_as_noResize]
  by_cases h : j % 8 == 0 <;> simp [h, length_SetNullBitNoResize]

theorem GetNullBit_append_zero (ns : List Nat) (i : Nat) :
    GetNullBit (ns ++ [0]) i = GetNullBit ns i := by
  rw [GetNullBit_eq_testBit, GetNullBit_eq_testBit]
  by_cases h : i / 8 < ns.length
  · rw [List.getD_append _ _ _ _ h]
  · push_neg at h
    rw [List.getD_append_right _ _ _ _ h, List.getD_eq_default _ _ h]
    rcases Nat.lt_or_ge (i / 8 - ns.length) 1 with h1 | h1
    · interval_cases hv : (i / 8 - ns.length)
      simp
    · rw [List.getD_eq_default]
      simp
      omega

theorem GetNullBit_SetNullBit (j : Nat) (b : Bool) (ns : List Nat) (i : Nat)
    (hcov : j / 8 < (if j % 8 == 0 then ns.length + 1 else ns.length)) :
    GetNullBit (SetNullBit j b ns) i = (GetNullBit ns i || (b && i == j)) := by
  rw [SetNullBit_as_noResize]
  by_cases hj : j % 8 == 0
  · rw [if_pos hj]
    rw [GetNullBit_SetNullBitNoResize _ _ _ _ (by simpa [hj] using hcov)]
    rw [GetNullBit_append_zero]
  · rw [if_neg hj]
    exact GetNullBit_SetNullBitNoResize _ _ _ _ (by simpa [hj] using hcov)

theorem appendBits_spec (bs : List Bool) (ns : List Nat) (j : Nat)
    (hlen : ns.length = (j + 7) / 8) :
    (appendBits ns j bs).length = (j + bs.length + 7) / 8 ∧
    ∀ i, GetNullBit (appendBits ns j bs) i =
      (GetNullBit ns i || (decide (j ≤ i ∧ i < j + bs.length) && bs.getD (i - j) false)) := by
  induction bs generalizing ns j with
  | nil =>
    constructor
    · simpa using hlen
    · intro i
      have hw : ¬ (j ≤ i ∧ i < j + List.length ([] : List Bool)) := by simp
      simp [appendBits, hw]
  | cons b tl ih =>
    have hlen1 : (SetNullBit j b ns).length = (j + 1 + 7) / 8 := by
      rw [length_SetNullBit]
      by_cases hj : j % 8 == 0
      · rw [if_pos hj]
        simp only [beq_iff_eq] at hj
        omega
      · rw [if_neg hj]
        simp only [beq_iff_eq] at hj
        omega
    have hcov : j / 8 < (if j % 8 == 0 then ns.length + 1 else ns.length) := by
      by_cases hj : j % 8 == 0
      · rw [if_pos hj]
        simp only [beq_iff_eq] at hj
        omega
      · rw [if_neg hj]
        simp only [beq_iff_eq] at hj
        omega
    obtain ⟨ihl, ihg⟩ := ih (SetNullBit j b ns) (j + 1) hlen1
    constructor
    · show (appendBits (SetNullBit j b ns) (j + 1) tl).length = _
      rw [ihl]
      have : j + 1 + tl.length + 7 = j + (b :: tl).length + 7 := by simp; omega
      rw [this]
    · intro i
      show GetNullBit (appendBits (SetNullBit j b ns) (j + 1) tl) i = _
      rw [ihg i, GetNullBit_SetNullBit _ _ _ _ hcov]
      by_cases hij : i = j
      · subst hij
        have h1 : ¬ (i + 1 ≤ i ∧ i < i + 1 + tl.length) := by omega
        have h2 : i ≤ i ∧ i < i + (tl.length + 1) := by omega
        simp [h1, h2, Bool.or_assoc]
      · have hbeq : (i == j) = false := by simp [hij]
        rcases Nat.lt_or_ge i j with hlt | hge
        · have h1 : ¬ (j + 1 ≤ i ∧ i < j + 1 + tl.length) := by omega
          have h2 : ¬ (j ≤ i ∧ i < j + (tl.length + 1)) := by omega
          simp [h1, h2, hbeq]
        · have hge1 : j + 1 ≤ i := by omega
          have hidx : i - j = (i - (j + 1)) + 1 := by omega
          rw [hidx, List.getD_cons_succ]
          by_cases h3 : i < j + 1 + tl.length
          · have h1 : j + 1 ≤ i ∧ i < j + 1 + tl.length := ⟨hge1, h3⟩
            have h2 : j ≤ i ∧ i < j + (tl.length + 1) := by omega
            simp [h1, h2, hbeq, Bool.or_assoc]
          · have h1 : ¬ (j + 1 ≤ i ∧ i < j + 1 + tl.length) := by omega
            have h2 : ¬ (j ≤ i ∧ i < j + (tl.length + 1)) := by omega
            simp [h1, h2, hbeq]

theorem appendBits_append (ns : List Nat) (j : Nat) (l : List Bool) (b : Bool) :
    appendBits ns j (l ++ [b]) = SetNullBit (j + l.length) b (appendBits ns j l) := by
  induction l generalizing ns j with
  | nil => simp [appendBits]
  | cons x xs ih =>
    show appendBits (SetNullBit j x ns) (j + 1) (xs ++ [b]) = _
    rw [ih]
    show _ = SetNullBit (j + (xs.length + 1)) b (appendBits (SetNullBit j x ns) (j + 1) xs)
    congr 1
    omega

theorem StitchNulls_eq_appendBits (nb k s : Nat) (src : List Nat) (dst : List Nat) :
    StitchNulls nb k s src dst =
      appendBits dst nb ((List.range k).map (fun i => GetNullBit src (i + s))) := by
  induction k with
  | zero => simp [StitchNulls, appendBits]
  | succ n ih =>
    unfold StitchNulls at ih ⊢
    rw [List.range_succ, List.foldl_append, List.map_append, List.foldl_cons, List.foldl_nil,
      List.map_cons, List.map_nil, appendBits_append, ih]
    congr 1
    simp

theorem orWrites_getBit (i : Nat) (ws : List (Bool × Bool)) :
    ∀ ns : List Nat, i / 8 < ns.length →
    GetNullBit (orWrites i ns ws) i = (GetNullBit ns i || ws.any (fun w => w.2)) := by
  induction ws with
  | nil =>
    intro ns _
    simp [orWrites]
  | cons w ws ih =>
    intro ns hcov
    show GetNullBit
      (orWrites i (if w.1 then SetNullBit i w.2 ns else SetNullBitNoResize i w.2 ns) ws) i = _
    by_cases hw : w.1 = true
    · rw [if_pos hw]
      have hcov2 : i / 8 < (SetNullBit i w.2 ns).length := by
        rw [length_SetNullBit]
        by_cases hj : i % 8 == 0
        · rw [if_pos hj]
          omega
        · rw [if_neg hj]
          omega
      have hcov3 : i / 8 < (if i % 8 == 0 then ns.length + 1 else ns.length) := by
        by_cases hj : i % 8 == 0
        · rw [if_pos hj]
          omega
        · rw [if_neg hj]
          omega
      rw [ih _ hcov2, GetNullBit_SetNullBit _ _ _ _ hcov3]
      simp [Bool.or_assoc]
    · rw [if_neg hw]
      have hcov2 : i / 8 < (SetNullBitNoResize i w.2 ns).length := by
        rw [length_SetNullBitNoResize]
        exact hcov
      rw [ih _ hcov2, GetNullBit_SetNullBitNoResize _ _ _ _ hcov]
      simp [Bool.or_assoc]

theorem foldl_prod_split (F : Nat → α → α) (G : Nat → β → β) :
    ∀ (l : List Nat) (a : α) (b : β),
    l.foldl (fun acc k => (F k acc.1, G k acc.2)) (a, b)
      = (l.foldl (fun x k => F k x) a, l.foldl (fun y k => G k y) b) := by
  intro l
  induction l with
  | nil =>
    intro a b
    rfl
  | cons x xs ih =>
    intro a b
    exact ih (F x a) (G x b)

theorem foldl_fun_eq (f g : β → α → β) (h : ∀ b a, f b a = g b a) (l : List α) (i : β) :
    l.foldl f i = l.foldl g i := by
  have hfg : f = g := funext fun b => funext fun a => h b a
  rw [hfg]

theorem foldl_set_spec (u : Nat → τ → τ) (d : τ) (rs : Nat) (r0 : List τ) :
    ∀ n, rs + n ≤ r0.length →
    ((List.range n).foldl (fun x k => x.set (rs + k) (u k (x.getD (rs + k) d))) r0).length
        = r0.length ∧
    (∀ j, (j < rs ∨ rs + n ≤ j) →
      ((List.range n).foldl (fun x k => x.set (rs + k) (u k (x.getD (rs + k) d))) r0).getD j d
        = r0.getD j d) ∧
    (∀ k, k < n →
      ((List.range n).foldl (fun x k => x.set (rs + k) (u k (x.getD (rs + k) d))) r0).getD
          (rs + k) d
        = u k (r0.getD (rs + k) d)) := by
  intro n
  induction n with
  | zero =>
    intro _
    refine ⟨by simp, fun j _ => by simp, fun k hk => by omega⟩
  | succ m ih =>
    intro hle
    obtain ⟨ihl, ihout, ihin⟩ := ih (by omega)
    have hstep : (List.range (m + 1)).foldl
          (fun x k => x.set (rs + k) (u k (x.getD (rs + k) d))) r0
        = ((List.range m).foldl (fun x k => x.set (rs + k) (u k (x.getD (rs + k) d))) r0).set
            (rs + m)
            (u m (((List.range m).foldl
              (fun x k => x.set (rs + k) (u k (x.getD (rs + k) d))) r0).getD (rs + m) d)) := by
      rw [List.range_succ, List.foldl_append, List.foldl_cons, List.foldl_nil]
    rw [hstep]
    have hFm : ((List.range m).foldl
        (fun x k => x.set (rs + k) (u k (x.getD (rs + k) d))) r0).getD (rs + m) d
        = r0.getD (rs + m) d := ihout (rs + m) (by omega)
    refine ⟨by simpa using ihl, ?_, ?_⟩
    · intro j hj
      rw [getD_set_other _ _ _ _ _ (by omega)]
      exact ihout j (by omega)
    · intro k hk
      by_cases hkm : k = m
      · subst hkm
        rw [getD_set_self _ _ _ _ (by rw [ihl]; omega), hFm]
      · rw [getD_set_other _ _ _ _ _ (by omega)]
        exact ihin k (by omega)

theorem foldl_setnulls_spec (p : Nat → Bool) (rs : Nat) (n0 : List Nat) :
    ∀ n, (rs + n + 7) / 8 ≤ n0.length →
    ((List.range n).foldl (fun y k => SetNullBitNoResize (rs + k) (p k) y) n0).length
        = n0.length ∧
    ∀ i, GetNullBit ((List.range n).foldl
          (fun y k => SetNullBitNoResize (rs + k) (p k) y) n0) i
        = (GetNullBit n0 i || (decide (rs ≤ i ∧ i < rs + n) && p (i - rs))) := by
  intro n
  induction n with
  | zero =>
    intro _
    refine ⟨by simp, fun i => ?_⟩
    have hw : ¬ (rs ≤ i ∧ i < rs + 0) := by omega
    simp [hw]
  | succ m ih =>
    intro hle
    obtain ⟨ihl, ihg⟩ := ih (by omega)
    have hstep : (List.range (m + 1)).foldl
          (fun y k => SetNullBitNoResize (rs + k) (p k) y) n0
        = SetNullBitNoResize (rs + m) (p m)
            ((List.range m).foldl (fun y k => SetNullBitNoResize (rs + k) (p k) y) n0) := by
      rw [List.range_succ, List.foldl_append, List.foldl_cons, List.foldl_nil]
    rw [hstep]
    have hcov : (rs + m) / 8
        < ((List.range m).foldl (fun y k => SetNullBitNoResize (rs + k) (p k) y) n0).length := by
      rw [ihl]
      omega
    refine ⟨by rw [length_SetNullBitNoResize, ihl], fun i => ?_⟩
    rw [GetNullBit_SetNullBitNoResize _ _ _ _ hcov, ihg i]
    by_cases hij : i = rs + m
    · subst hij
      have h1 : ¬ (rs ≤ rs + m ∧ rs + m < rs + m) := by omega
      have h2 : rs ≤ rs + m ∧ rs + m < rs + (m + 1) := by omega
      simp [h1, h2]
    · have hbeq : (i == rs + m) = false := by simp [hij]
      by_cases h1 : rs ≤ i ∧ i < rs + m
      · have h2 : rs ≤ i ∧ i < rs + (m + 1) := by omega
        simp [h1, h2, hbeq]
      · have h2 : ¬ (rs ≤ i ∧ i < rs + (m + 1)) := by omega
        simp [h1, h2, hbeq]

theorem AddValues_split (getVal : Nat → Option EVal) (proj : EVal → σ) (cast : σ → τ)
    (zeroS : σ) (dfltT : τ) (result : List τ) (nulls : List Nat) (ss rs n : Nat) :
    AddValues getVal proj cast zeroS dfltT result nulls ss rs n =
      ((List.range n).foldl
        (fun x k => x.set (rs + k)
          ((fun k (_ : τ) =>
            match getVal (ss + k) with
              | none => cast zeroS
              | some e => cast (proj e)) k (x.getD (rs + k) dfltT)))
        (listResize result (rs + n) dfltT),
       (List.range n).foldl
        (fun y k => SetNullBitNoResize (rs + k) ((getVal (ss + k)).isNone) y)
        (SetNullsSize (rs + n) nulls)) := by
  unfold AddValues
  exact foldl_prod_split
    (fun k x => x.set (rs + k)
      (match getVal (ss + k) with
        | none => cast zeroS
        | some e => cast (proj e)))
    (fun k y => SetNullBitNoResize (rs + k) ((getVal (ss + k)).isNone) y)
    (List.range n) (listResize result (rs + n) dfltT) (SetNullsSize (rs + n) nulls)

theorem AddValues_spec (getVal : Nat → Option EVal) (proj : EVal → σ) (cast : σ → τ)
    (zeroS : σ) (dfltT : τ) (result : List τ) (nulls : List Nat) (ss rs n : Nat) :
    (AddValues getVal proj cast zeroS dfltT result nulls ss rs n).1.length = rs + n ∧
    (∀ k, k < n →
      (AddValues getVal proj cast zeroS dfltT result nulls ss rs n).1.getD (rs + k) dfltT =
        (match getVal (ss + k) with
          | none => cast zeroS
          | some e => cast (proj e))) ∧
    (AddValues getVal proj cast zeroS dfltT result nulls ss rs n).2.length =
      GetNullsRequiredSize (rs + n) ∧
    (∀ i, GetNullBit (AddValues getVal proj cast zeroS dfltT result nulls ss rs n).2 i =
      (GetNullBit (SetNullsSize (rs + n) nulls) i ||
        (decide (rs ≤ i ∧ i < rs + n) && (getVal (ss + (i - rs))).isNone))) := by
  rw [AddValues_split]
  have hr0 : rs + n ≤ (listResize result (rs + n) dfltT).length := by
    rw [length_listResize]
  have hn0 : (rs + n + 7) / 8 ≤ (SetNullsSize (rs + n) nulls).length := by
    rw [SetNullsSize, length_listResize, GetNullsRequiredSize]
  obtain ⟨hvl, _, hvin⟩ := foldl_set_spec
    (fun k (_ : τ) =>
      match getVal (ss + k) with
        | none => cast zeroS
        | some e => cast (proj e))
    dfltT rs (listResize result (rs + n) dfltT) n hr0
  obtain ⟨hnl, hng⟩ := foldl_setnulls_spec
    (fun k => (getVal (ss + k)).isNone) rs (SetNullsSize (rs + n) nulls) n hn0
  refine ⟨?_, ?_, ?_, ?_⟩
  · rw [hvl, length_listResize]
  · intro k hk
    exact hvin k hk
  · rw [hnl, SetNullsSize, length_listResize]
  · intro i
    exact hng i

theorem AddStringValues_spec (getVal : Nat → Option EVal)
    (result : List String) (nulls : List Nat) (ss rs n : Nat) :
    (AddStringValues getVal result nulls ss rs n).1.length = rs + n ∧
    (∀ k, k < n →
      (AddStringValues getVal result nulls ss rs n).1.getD (rs + k) "" =
        (match getVal (ss + k) with
          | none => (listResize result (rs + n) "").getD (rs + k) ""
          | some e => e.asStr)) ∧
    (AddStringValues getVal result nulls ss rs n).2.length =
      GetNullsRequiredSize (rs + n) ∧
    (∀ i, GetNullBit (AddStringValues getVal result nulls ss rs n).2 i =
      (GetNullBit (SetNullsSize (rs + n) nulls) i ||
        (decide (rs ≤ i ∧ i < rs + n) && (getVal (ss + (i - rs))).isNone))) := by
  have hpt : ∀ (acc : List String × List Nat) (k : Nat),
      (match getVal (ss + k) with
        | none => acc.1
        | some e => acc.1.set (rs + k) e.asStr,
       SetNullBitNoResize (rs + k) (getVal (ss + k)).isNone acc.2) =
      (acc.1.set (rs + k)
        ((fun k (old : String) =>
          match getVal (ss + k) with
            | none => old
            | some e => e.asStr) k (acc.1.getD (rs + k) "")),
       SetNullBitNoResize (rs + k) (getVal (ss + k)).isNone acc.2) := by
    intro acc k
    cases hv : getVal (ss + k) with
    | none =>
      simp only [hv]
      rw [set_getD_id]
    | some e => simp only [hv]
  have hsplit : AddStringValues getVal result nulls ss rs n =
      ((List.range n).foldl
        (fun x k => x.set (rs + k)
          ((fun k (old : String) =>
            match getVal (ss + k) with
              | none => old
              | some e => e.asStr) k (x.getD (rs + k) "")))
        (listResize result (rs + n) ""),
       (List.range n).foldl
        (fun y k => SetNullBitNoResize (rs + k) ((getVal (ss + k)).isNone) y)
        (SetNullsSize (rs + n) nulls)) := by
    calc AddStringValues getVal result nulls ss rs n
        = (List.range n).foldl
            (fun acc k =>
              (acc.1.set (rs + k)
                ((fun k (old : String) =>
                  match getVal (ss + k) with
                    | none => old
                    | some e => e.asStr) k (acc.1.getD (rs + k) "")),
               SetNullBitNoResize (rs + k) (getVal (ss + k)).isNone acc.2))
            (listResize result (rs + n) "", SetNullsSize (rs + n) nulls) :=
          foldl_fun_eq _ _ hpt _ _
      _ = _ :=
          foldl_prod_split
            (fun k x => x.set (rs + k)
              ((fun k (old : String) =>
                match getVal (ss + k) with
                  | none => old
                  | some e => e.asStr) k (x.getD (rs + k) "")))
            (fun k y => SetNullBitNoResize (rs + k) ((getVal (ss + k)).isNone) y)
            (List.range n) (listResize result (rs + n) "") (SetNullsSize (rs + n) nulls)
  rw [hsplit]
  have hr0 : rs + n ≤ (listResize result (rs + n) "").length := by
    rw [length_listResize]
  have hn0 : (rs + n + 7) / 8 ≤ (SetNullsSize (rs + n) nulls).length := by
    rw [SetNullsSize, length_listResize, GetNullsRequiredSize]
  obtain ⟨hvl, _, hvin⟩ := foldl_set_spec
    (fun k (old : String) =>
      match getVal (ss + k) with
        | none => old
        | some e => e.asStr)
    "" rs (listResize result (rs + n) "") n hr0
  obtain ⟨hnl, hng⟩ := foldl_setnulls_spec
    (fun k => (getVal (ss + k)).isNone) rs (SetNullsSize (rs + n) nulls) n hn0
  refine ⟨?_, ?_, ?_, ?_⟩
  · rw [hvl, length_listResize]
  · intro k hk
    exact hvin k hk
  · rw [hnl, SetNullsSize, length_listResize]
  · intro i
    exact hng i

theorem AddTimestampValues_spec (getVal : Nat → Option EVal) (tsFmt : Int → String)
    (result : List String) (nulls : List Nat) (ss rs n : Nat) :
    (AddTimestampValues getVal tsFmt result nulls ss rs n).1.length = rs + n ∧
    (∀ k, k < n →
      (AddTimestampValues getVal tsFmt result nulls ss rs n).1.getD (rs + k) "" =
        (match getVal (ss + k) with
          | none => (listResize result (rs + n) "").getD (rs + k) ""
          | some e => tsFmt e.asTs)) ∧
    (AddTimestampValues getVal tsFmt result nulls ss rs n).2.length =
      GetNullsRequiredSize (rs + n) ∧
    (∀ i, GetNullBit (AddTimestampValues getVal tsFmt result nulls ss rs n).2 i =
      (GetNullBit (SetNullsSize (rs + n) nulls) i ||
        (decide (rs ≤ i ∧ i < rs + n) && (getVal (ss + (i - rs))).isNone))) := by
  have hpt : ∀ (acc : List String × List Nat) (k : Nat),
      (match getVal (ss + k) with
        | none => acc.1
        | some e => acc.1.set (rs + k) (tsFmt e.asTs),
       SetNullBitNoResize (rs + k) (getVal (ss + k)).isNone acc.2) =
      (acc.1.set (rs + k)
        ((fun k (old : String) =>
          match getVal (ss + k) with
            | none => old
            | some e => tsFmt e.asTs) k (acc.1.getD (rs + k) "")),
       SetNullBitNoResize (rs + k) (getVal (ss + k)).isNone acc.2) := by
    intro acc k
    cases hv : getVal (ss + k) with
    | none =>
      simp only [hv]
      rw [set_getD_id]
    | some e => simp only [hv]
  have hsplit : AddTimestampValues getVal tsFmt result nulls ss rs n =
      ((List.range n).foldl
        (fun x k => x.set (rs + k)
          ((fun k (old : String) =>
            match getVal (ss + k) with
              | none => old
              | some e => tsFmt e.asTs) k (x.getD (rs + k) "")))
        (listResize result (rs + n) ""),
       (List.range n).foldl
        (fun y k => SetNullBitNoResize (rs + k) ((getVal (ss + k)).isNone) y)
        (SetNullsSize (rs + n) nulls)) := by
    calc AddTimestampValues getVal tsFmt result nulls ss rs n
        = (List.range n).foldl
            (fun acc k =>
              (acc.1.set (rs + k)
                ((fun k (old : String) =>
                  match getVal (ss + k) with
                    | none => old
                    | some e => tsFmt e.asTs) k (acc.1.getD (rs + k) "")),
               SetNullBitNoResize (rs + k) (getVal (ss + k)).isNone acc.2))
            (listResize result (rs + n) "", SetNullsSize (rs + n) nulls) :=
          foldl_fun_eq _ _ hpt _ _
      _ = _ :=
          foldl_prod_split
            (fun k x => x.set (rs + k)
              ((fun k (old : String) =>
                match getVal (ss + k) with
                  | none => old
                  | some e => tsFmt e.asTs) k (x.getD (rs + k) "")))
            (fun k y => SetNullBitNoResize (rs + k) ((getVal (ss + k)).isNone) y)
            (List.range n) (listResize result (rs + n) "") (SetNullsSize (rs + n) nulls)
  rw [hsplit]
  have hr0 : rs + n ≤ (listResize result (rs + n) "").length := by
    rw [length_listResize]
  have hn0 : (rs + n + 7) / 8 ≤ (SetNullsSize (rs + n) nulls).length := by
    rw [SetNullsSize, length_listResize, GetNullsRequiredSize]
  obtain ⟨hvl, _, hvin⟩ := foldl_set_spec
    (fun k (old : String) =>
      match getVal (ss + k) with
        | none => old
        | some e => tsFmt e.asTs)
    "" rs (listResize result (rs + n) "") n hr0
  obtain ⟨hnl, hng⟩ := foldl_setnulls_spec
    (fun k => (getVal (ss + k)).isNone) rs (SetNullsSize (rs + n) nulls) n hn0
  refine ⟨?_, ?_, ?_, ?_⟩
  · rw [hvl, length_listResize]
  · intro k hk
    exact hvin k hk
  · rw [hnl, SetNullsSize, length_listResize]
  · intro i
    exact hng i

theorem AddCharValues_spec (getVal : Nat → Option EVal) (charLen : Nat)
    (result : List String) (nulls : List Nat) (ss rs n : Nat) :
    (AddCharValues getVal charLen result nulls ss rs n).1.length = rs + n ∧
    (∀ k, k < n →
      (AddCharValues getVal charLen result nulls ss rs n).1.getD (rs + k) "" =
        (match getVal (ss + k) with
          | none => (listResize result (rs + n) "").getD (rs + k) ""
          | some e => String.mk (e.asChar.take charLen))) ∧
    (AddCharValues getVal charLen result nulls ss rs n).2.length =
      GetNullsRequiredSize (rs + n) ∧
    (∀ i, GetNullBit (AddCharValues getVal charLen result nulls ss rs n).2 i =
      (GetNullBit (SetNullsSize (rs + n) nulls) i ||
        (decide (rs ≤ i ∧ i < rs + n) && (getVal (ss + (i - rs))).isNone))) := by
  have hpt : ∀ (acc : List String × List Nat) (k : Nat),
      (match getVal (ss + k) with
        | none => acc.1
        | some e => acc.1.set (rs + k) (String.mk (e.asChar.take charLen)),
       SetNullBitNoResize (rs + k) (getVal (ss + k)).isNone acc.2) =
      (acc.1.set (rs + k)
        ((fun k (old : String) =>
          match getVal (ss + k) with
            | none => old
            | some e => String.mk (e.asChar.take charLen)) k (acc.1.getD (rs + k) "")),
       SetNullBitNoResize (rs + k) (getVal (ss + k)).isNone acc.2) := by
    intro acc k
    cases hv : getVal (ss + k) with
    | none =>
      simp only [hv]
      rw [set_getD_id]
    | some e => simp only [hv]
  have hsplit : AddCharValues getVal charLen result nulls ss rs n =
      ((List.range n).foldl
        (fun x k => x.set (rs + k)
          ((fun k (old : String) =>
            match getVal (ss + k) with
              | none => old
              | some e => String.mk (e.asChar.take charLen)) k (x.getD (rs + k) "")))
        (listResize result (rs + n) ""),
       (List.range n).foldl
        (fun y k => SetNullBitNoResize (rs + k) ((getVal (ss + k)).isNone) y)
        (SetNullsSize (rs + n) nulls)) := by
    calc AddCharValues getVal charLen result nulls ss rs n
        = (List.range n).foldl
            (fun acc k =>
              (acc.1.set (rs + k)
                ((fun k (old : String) =>
                  match getVal (ss + k) with
                    | none => old
                    | some e => String.mk (e.asChar.take charLen)) k (acc.1.getD (rs + k) "")),
               SetNullBitNoResize (rs + k) (getVal (ss + k)).isNone acc.2))
            (listResize result (rs + n) "", SetNullsSize (rs + n) nulls) :=
          foldl_fun_eq _ _ hpt _ _
      _ = _ :=
          foldl_prod_split
            (fun k x => x.set (rs + k)
              ((fun k (old : String) =>
                match getVal (ss + k) with
                  | none => old
                  | some e => String.mk (e.asChar.take charLen)) k (x.getD (rs + k) "")))
            (fun k y => SetNullBitNoResize (rs + k) ((getVal (ss + k)).isNone) y)
            (List.range n) (listResize result (rs + n) "") (SetNullsSize (rs + n) nulls)
  rw [hsplit]
  have hr0 : rs + n ≤ (listResize result (rs + n) "").length := by
    rw [length_listResize]
  have hn0 : (rs + n + 7) / 8 ≤ (SetNullsSize (rs + n) nulls).length := by
    rw [SetNullsSize, length_listResize, GetNullsRequiredSize]
  obtain ⟨hvl, _, hvin⟩ := foldl_set_spec
    (fun k (old : String) =>
      match getVal (ss + k) with
        | none => old
        | some e => String.mk (e.asChar.take charLen))
    "" rs (listResize result (rs + n) "") n hr0
  obtain ⟨hnl, hng⟩ := foldl_setnulls_spec
    (fun k => (getVal (ss + k)).isNone) rs (SetNullsSize (rs + n) nulls) n hn0
  refine ⟨?_, ?_, ?_, ?_⟩
  · rw [hvl, length_listResize]
  · intro k hk
    exact hvin k hk
  · rw [hnl, SetNullsSize, length_listResize]
  · intro i
    exact hng i

theorem AddDecimalValues_split (getVal : Nat → Option EVal) (toStr : Int → String)
    (result : List String) (nulls : List Nat) (ss rs n : Nat) :
    AddDecimalValues getVal toStr result nulls ss rs n =
      ((List.range n).foldl
        (fun x k => x.set (rs + k)
          ((fun k (_ : String) =>
            match getVal (ss + k) with
              | none => ""
              | some e => toStr e.asDec) k (x.getD (rs + k) "")))
        (listResize result (rs + n) ""),
       (List.range n).foldl
        (fun y k => SetNullBitNoResize (rs + k) ((getVal (ss + k)).isNone) y)
        (SetNullsSize (rs + n) nulls)) := by
  unfold AddDecimalValues
  exact foldl_prod_split
    (fun k x => x.set (rs + k)
      (match getVal (ss + k) with
        | none => ""
        | some e => toStr e.asDec))
    (fun k y => SetNullBitNoResize (rs + k) ((getVal (ss + k)).isNone) y)
    (List.range n) (listResize result (rs + n) "") (SetNullsSize (rs + n) nulls)

theorem AddDecimalValues_spec (getVal : Nat → Option EVal) (toStr : Int → String)
    (result : List String) (nulls : List Nat) (ss rs n : Nat) :
    (AddDecimalValues getVal toStr result nulls ss rs n).1.length = rs + n ∧
    (∀ k, k < n →
      (AddDecimalValues getVal toStr result nulls ss rs n).1.getD (rs + k) "" =
        (match getVal (ss + k) with
          | none => ""
          | some e => toStr e.asDec)) ∧
    (AddDecimalValues getVal toStr result nulls ss rs n).2.length =
      GetNullsRequiredSize (rs + n) ∧
    (∀ i, GetNullBit (AddDecimalValues getVal toStr result nulls ss rs n).2 i =
      (GetNullBit (SetNullsSize (rs + n) nulls) i ||
        (decide (rs ≤ i ∧ i < rs + n) && (getVal (ss + (i - rs))).isNone))) := by
  rw [AddDecimalValues_split]
  have hr0 : rs + n ≤ (listResize result (rs + n) "").length := by
    rw [length_listResize]
  have hn0 : (rs + n + 7) / 8 ≤ (SetNullsSize (rs + n) nulls).length := by
    rw [SetNullsSize, length_listResize, GetNullsRequiredSize]
  obtain ⟨hvl, _, hvin⟩ := foldl_set_spec
    (fun k (_ : String) =>
      match getVal (ss + k) with
        | none => ""
        | some e => toStr e.asDec)
    "" rs (listResize result (rs + n) "") n hr0
  obtain ⟨hnl, hng⟩ := foldl_setnulls_spec
    (fun k => (getVal (ss + k)).isNone) rs (SetNullsSize (rs + n) nulls) n hn0
  refine ⟨?_, ?_, ?_, ?_⟩
  · rw [hvl, length_listResize]
  · intro k hk
    exact hvin k hk
  · rw [hnl, SetNullsSize, length_listResize]
  · intro i
    exact hng i

theorem GetNullBit_nil (i : Nat) : GetNullBit [] i = false := by
  rw [GetNullBit_eq_testBit]
  simp [Nat.zero_testBit]

theorem GetNullBit_SetNullsSize_nil (m i : Nat) :
    GetNullBit (SetNullsSize m []) i = false := by
  rw [GetNullBit_eq_testBit, SetNullsSize, getD_listResize]
  simp [Nat.zero_testBit]

/-- C4: appending `n` nullness bits one at a time through the streaming
appender `SetNullBit`, at row indices `0..n-1` starting from an empty
bitmap, leaves the bitmap byte-length exactly `ceil(n/8)`, i.e.
`GetNullsRequiredSize n`. -/
theorem streaming_append_length (bs : List Bool) :
    (appendBits [] 0 bs).length = GetNullsRequiredSize bs.length := by
  have h := (appendBits_spec bs [] 0 (by simp)).1
  simpa [GetNullsRequiredSize] using h

/-- C3: stitching the bit range `[s, s+k)` of a source bitmap covering
rows `[0, m)` into a fresh empty destination at destination offset `0`
reproduces, bit for bit, the source bits: `getBit i` of the destination
equals `getBit (s+i)` of the source for every `i < k`. -/
theorem stitch_roundtrip (src : List Nat) (m s k : Nat)
    (hrange : s + k ≤ m) (hlen : src.length = GetNullsRequiredSize m) :
    ∀ i, i < k → GetNullBit (StitchNulls 0 k s src []) i = GetNullBit src (s + i) := by
  intro i hik
  rw [StitchNulls_eq_appendBits]
  have h := (appendBits_spec ((List.range k).map (fun t => GetNullBit src (t + s))) [] 0
    (by simp)).2 i
  rw [h, GetNullBit_nil, Bool.false_or]
  have hw : 0 ≤ i ∧ i < 0 + ((List.range k).map (fun t => GetNullBit src (t + s))).length := by
    simp
    omega
  have hlt : i - 0 < ((List.range k).map (fun t => GetNullBit src (t + s))).length := by
    simp
    omega
  rw [decide_eq_true hw, Bool.true_and, List.getD_eq_getElem _ _ hlt]
  simp only [List.getElem_map, List.getElem_range, Nat.sub_zero]
  rw [Nat.add_comm i s]

/-- Witness for C3 at a concrete source bitmap and range. -/
theorem stitch_roundtrip_witness :
    GetNullBit (StitchNulls 0 5 3 [171, 2] []) 2 = GetNullBit [171, 2] (3 + 2) :=
  stitch_roundtrip [171, 2] 10 3 5 (by decide) (by decide) 2 (by decide)

/-- C5: at a fixed row index `i` covered by the bitmap and initially
clear, any interleaving of `SetNullBit` / `SetNullBitNoResize` writes
leaves `getBit i` true exactly when at least one write passed
`isNull = true`: bits are only ever OR'd in, so a later `false` write
never clears an earlier `true`. -/
theorem setbit_or_monotone (ns : List Nat) (i : Nat) (ws : List (Bool × Bool))
    (hcov : i / 8 < ns.length) (hinit : GetNullBit ns i = false) :
    GetNullBit (orWrites i ns ws) i = ws.any (fun w => w.2) := by
  rw [orWrites_getBit i ws ns hcov, hinit, Bool.false_or]

/-- Witness for C5: a `true` write followed by a `false` write at the
same index leaves the bit set. -/
theorem setbit_or_monotone_witness :
    GetNullBit (orWrites 3 [0] [(false, true), (false, false)]) 3 = true := by
  have h := setbit_or_monotone [0] 3 [(false, true), (false, false)] (by decide) (by decide)
  rw [h]
  decide

/-- C6 counterexample: the resize operation DOES shrink the bitmap. A
two-byte bitmap resized for `newRowCount = 1` is truncated to one byte,
so the claim's never-shrinks clause fails. -/
theorem setnullssize_shrinks_counterexample :
    (SetNullsSize 1 [0, 0]).length = 1 ∧ ([0, 0] : List Nat).length = 2 := by
  constructor <;> rfl

/-- C6 amended: `SetNullsSize` sets the byte length to exactly
`requiredBytes(newRowCount) = ceil(newRowCount/8)`, preserves the
retained prefix bytes, zero-fills any newly added bytes, and does not
shrink the bitmap whenever the required size is at least the current
length (when the required size is smaller, the bitmap is truncated). -/
theorem setnullssize_amended (nulls : List Nat) (newRowCount : Nat) :
    (SetNullsSize newRowCount nulls).length = GetNullsRequiredSize newRowCount ∧
    (∀ j, j < nulls.length → j < GetNullsRequiredSize newRowCount →
      (SetNullsSize newRowCount nulls).getD j 0 = nulls.getD j 0) ∧
    (∀ j, nulls.length ≤ j → j < GetNullsRequiredSize newRowCount →
      (SetNullsSize newRowCount nulls).getD j 0 = 0) ∧
    (nulls.length ≤ GetNullsRequiredSize newRowCount →
      nulls.length ≤ (SetNullsSize newRowCount nulls).length) := by
  refine ⟨?_, ?_, ?_, ?_⟩
  · rw [SetNullsSize, length_listResize]
  · intro j hj1 hj2
    rw [SetNullsSize, getD_listResize, if_pos ⟨hj2, hj1⟩]
  · intro j hj1 hj2
    rw [SetNullsSize, getD_listResize, if_neg (by omega)]
  · intro hle
    rw [SetNullsSize, length_listResize]
    exact hle

/-- Witness for C6 amended: growing a one-byte bitmap to cover 17 rows
yields three bytes, keeps the old byte and zero-fills the new ones. -/
theorem setnullssize_amended_witness :
    (SetNullsSize 17 [5]).length = GetNullsRequiredSize 17 ∧
    (SetNullsSize 17 [5]).getD 0 0 = 5 ∧
    (SetNullsSize 17 [5]).getD 2 0 = 0 ∧
    ([5] : List Nat).length ≤ (SetNullsSize 17 [5]).length := by
  obtain ⟨h1, h2, h3, h4⟩ := setnullssize_amended [5] 17
  exact ⟨h1, h2 0 (by decide) (by decide), h3 2 (by decide) (by decide), h4 (by decide)⟩

/-- C1 evidence: the bulk pre-decoded appender disagrees with the
per-value appender on the very same single value. For a present BOOLEAN
value both push `true`, but the per-value path leaves the null bit
clear while the bulk path sets it (it passes the `__isset` flag,
unnegated, as the null indicator). For a present DECIMAL value the
per-value path writes the string payload into `stringVal.values` and
the `stringVal` bitmap, while the bulk path writes a narrowing of
`long_val` into `stringVal.values` and sizes and writes the `i64Val`
bitmap instead, leaving the `stringVal` bitmap empty. -/
theorem tcolumnvalues_bulk_discipline_bug :
    (TColumnValueToHS2TColumn
        { TColumnValue.init with isset_bool := true, bool_val := true }
        ⟨.BOOLEAN, 0, 0⟩ 0 TColumn.empty).boolVal.values = [true] ∧
    GetNullBit (TColumnValueToHS2TColumn
        { TColumnValue.init with isset_bool := true, bool_val := true }
        ⟨.BOOLEAN, 0, 0⟩ 0 TColumn.empty).boolVal.nulls 0 = false ∧
    (TColumnValuesToHS2TColumn
        [{ TColumnValue.init with isset_bool := true, bool_val := true }]
        ⟨.BOOLEAN, 0, 0⟩ 0 0 1 TColumn.empty).boolVal.values = [true] ∧
    GetNullBit (TColumnValuesToHS2TColumn
        [{ TColumnValue.init with isset_bool := true, bool_val := true }]
        ⟨.BOOLEAN, 0, 0⟩ 0 0 1 TColumn.empty).boolVal.nulls 0 = true ∧
    (TColumnValueToHS2TColumn
        { TColumnValue.init with isset_string := true, string_val := "1.5" }
        ⟨.DECIMAL, 0, 8⟩ 0 TColumn.empty).stringVal.values = ["1.5"] ∧
    GetNullBit (TColumnValueToHS2TColumn
        { TColumnValue.init with isset_string := true, string_val := "1.5" }
        ⟨.DECIMAL, 0, 8⟩ 0 TColumn.empty).stringVal.nulls 0 = false ∧
    (TColumnValueToHS2TColumn
        { TColumnValue.init with isset_string := true, string_val := "1.5" }
        ⟨.DECIMAL, 0, 8⟩ 0 TColumn.empty).i64Val.nulls = [] ∧
    (TColumnValuesToHS2TColumn
        [{ TColumnValue.init with isset_string := true, string_val := "1.5" }]
        ⟨.DECIMAL, 0, 8⟩ 0 0 1 TColumn.empty).stringVal.values ≠ ["1.5"] ∧
    (TColumnValuesToHS2TColumn
        [{ TColumnValue.init with isset_string := true, string_val := "1.5" }]
        ⟨.DECIMAL, 0, 8⟩ 0 0 1 TColumn.empty).stringVal.nulls = [] ∧
    (TColumnValuesToHS2TColumn
        [{ TColumnValue.init with isset_string := true, string_val := "1.5" }]
        ⟨.DECIMAL, 0, 8⟩ 0 0 1 TColumn.empty).i64Val.nulls = [0] := by
  refine ⟨rfl, by decide, rfl, by decide, rfl, by decide, rfl, by decide, rfl, rfl⟩

/-- C10: the `NULL_TYPE` tag is routed through the boolean branch by
every columnar appender — each treats a `NULL_TYPE` descriptor exactly
as a `BOOLEAN` one, appending into `boolVal.values` and the `boolVal`
bitmap and leaving every other sub-column untouched — while the legacy
`ExprValueToHS2TColumnValue` always yields a boolean variant whose
value-presence flag is clear, whether or not the input pointer is null. -/
theorem null_type_routing (env : RenderEnv) (getVal : Nat → Option EVal)
    (value : Option EVal) (colVal : TColumnValue) (column : TColumn)
    (rowIdx ss rs n la lb da db : Nat) (colVals : List TColumnValue) :
    ExprValueToHS2TColumn env value ⟨.NULL_TYPE, la, da⟩ rowIdx column =
      ExprValueToHS2TColumn env value ⟨.BOOLEAN, lb, db⟩ rowIdx column ∧
    (ExprValueToHS2TColumn env value ⟨.NULL_TYPE, la, da⟩ rowIdx column).boolVal.values =
      column.boolVal.values ++ [match value with | none => false | some e => e.asBool] ∧
    (ExprValueToHS2TColumn env value ⟨.NULL_TYPE, la, da⟩ rowIdx column).boolVal.nulls =
      SetNullBit rowIdx value.isNone column.boolVal.nulls ∧
    (ExprValueToHS2TColumn env value ⟨.NULL_TYPE, la, da⟩ rowIdx column).byteVal =
      column.byteVal ∧
    (ExprValueToHS2TColumn env value ⟨.NULL_TYPE, la, da⟩ rowIdx column).i16Val =
      column.i16Val ∧
    (ExprValueToHS2TColumn env value ⟨.NULL_TYPE, la, da⟩ rowIdx column).i32Val =
      column.i32Val ∧
    (ExprValueToHS2TColumn env value ⟨.NULL_TYPE, la, da⟩ rowIdx column).i64Val =
      column.i64Val ∧
    (ExprValueToHS2TColumn env value ⟨.NULL_TYPE, la, da⟩ rowIdx column).doubleVal =
      column.doubleVal ∧
    (ExprValueToHS2TColumn env value ⟨.NULL_TYPE, la, da⟩ rowIdx column).stringVal =
      column.stringVal ∧
    TColumnValueToHS2TColumn colVal ⟨.NULL_TYPE, la, da⟩ rowIdx column =
      TColumnValueToHS2TColumn colVal ⟨.BOOLEAN, lb, db⟩ rowIdx column ∧
    (TColumnValueToHS2TColumn colVal ⟨.NULL_TYPE, la, da⟩ rowIdx column).boolVal.values =
      column.boolVal.values ++ [colVal.bool_val] ∧
    (TColumnValueToHS2TColumn colVal ⟨.NULL_TYPE, la, da⟩ rowIdx column).boolVal.nulls =
      SetNullBit rowIdx (!colVal.isset_bool) column.boolVal.nulls ∧
    ExprValuesToHS2TColumn env getVal ⟨.NULL_TYPE, la, da⟩ ss rs n column =
      ExprValuesToHS2TColumn env getVal ⟨.BOOLEAN, lb, db⟩ ss rs n column ∧
    (ExprValuesToHS2TColumn env getVal ⟨.NULL_TYPE, la, da⟩ ss rs n column).boolVal =
      ⟨(AddValues getVal EVal.asBool (fun b => b) false false
          column.boolVal.values column.boolVal.nulls ss rs n).1,
        (AddValues getVal EVal.asBool (fun b => b) false false
          column.boolVal.values column.boolVal.nulls ss rs n).2⟩ ∧
    (ExprValuesToHS2TColumn env getVal ⟨.NULL_TYPE, la, da⟩ ss rs n column).stringVal =
      column.stringVal ∧
    TColumnValuesToHS2TColumn colVals ⟨.NULL_TYPE, la, da⟩ ss rs n column =
      TColumnValuesToHS2TColumn colVals ⟨.BOOLEAN, lb, db⟩ ss rs n column ∧
    (TColumnValuesToHS2TColumn colVals ⟨.NULL_TYPE, la, da⟩ ss rs n column).stringVal =
      column.stringVal ∧
    ExprValueToHS2TColumnValue env value ⟨.NULL_TYPE, la, da⟩ =
      { HS2TColumnValue.init with isset_boolVal := true } := by
  refine ⟨rfl, rfl, rfl, rfl, rfl, rfl, rfl, rfl, rfl, rfl, rfl, rfl, rfl, rfl, rfl, rfl,
    rfl, rfl⟩

/-- C8: the legacy printer tests the variant-selected flags in the fixed
order boolean, double, byte, int32, int16, int64, text, and renders the
first selected variant (shown by successively clearing the winning
flag on a record with every variant selected and present); a selected
byte variant holding 65 renders as the numeral `65`, not the glyph `A`;
a selected boolean `true` renders as `true`; and a record with no
selected variant, or whose selected variant has its value-presence
flag clear, prints exactly `NULL`. -/
theorem print_tcolumnvalue_spec (showDouble : Int → String) :
    PrintTColumnValue showDouble
      ⟨true, ⟨true, true⟩, true, ⟨true, 65⟩, true, ⟨true, 16⟩, true, ⟨true, 32⟩,
        true, ⟨true, 64⟩, true, ⟨true, 2⟩, true, ⟨true, "s"⟩⟩ = "true" ∧
    PrintTColumnValue showDouble
      ⟨false, ⟨true, true⟩, true, ⟨true, 65⟩, true, ⟨true, 16⟩, true, ⟨true, 32⟩,
        true, ⟨true, 64⟩, true, ⟨true, 2⟩, true, ⟨true, "s"⟩⟩ = showDouble 2 ∧
    PrintTColumnValue showDouble
      ⟨false, ⟨true, true⟩, true, ⟨true, 65⟩, true, ⟨true, 16⟩, true, ⟨true, 32⟩,
        true, ⟨true, 64⟩, false, ⟨true, 2⟩, true, ⟨true, "s"⟩⟩ = "65" ∧
    PrintTColumnValue showDouble
      ⟨false, ⟨true, true⟩, true, ⟨true, 65⟩, true, ⟨true, 16⟩, true, ⟨true, 32⟩,
        true, ⟨true, 64⟩, false, ⟨true, 2⟩, true, ⟨true, "s"⟩⟩ ≠ "A" ∧
    PrintTColumnValue showDouble
      ⟨false, ⟨true, true⟩, false, ⟨true, 65⟩, true, ⟨true, 16⟩, true, ⟨true, 32⟩,
        true, ⟨true, 64⟩, false, ⟨true, 2⟩, true, ⟨true, "s"⟩⟩ = "32" ∧
    PrintTColumnValue showDouble
      ⟨false, ⟨true, true⟩, false, ⟨true, 65⟩, true, ⟨true, 16⟩, false, ⟨true, 32⟩,
        true, ⟨true, 64⟩, false, ⟨true, 2⟩, true, ⟨true, "s"⟩⟩ = "16" ∧
    PrintTColumnValue showDouble
      ⟨false, ⟨true, true⟩, false, ⟨true, 65⟩, false, ⟨true, 16⟩, false, ⟨true, 32⟩,
        true, ⟨true, 64⟩, false, ⟨true, 2⟩, true, ⟨true, "s"⟩⟩ = "64" ∧
    PrintTColumnValue showDouble
      ⟨false, ⟨true, true⟩, false, ⟨true, 65⟩, false, ⟨true, 16⟩, false, ⟨true, 32⟩,
        false, ⟨true, 64⟩, false, ⟨true, 2⟩, true, ⟨true, "s"⟩⟩ = "s" ∧
    PrintTColumnValue showDouble HS2TColumnValue.init = "NULL" ∧
    PrintTColumnValue showDouble
      { HS2TColumnValue.init with isset_boolVal := true } = "NULL" ∧
    PrintTColumnValue showDouble
      { HS2TColumnValue.init with isset_i32Val := true, i32Val := ⟨false, 7⟩ } = "NULL" ∧
    PrintTColumnValue showDouble
      { HS2TColumnValue.init with
          isset_stringVal := true
          stringVal := ⟨false, "x"⟩ } = "NULL" := by
  have h65 : PrintTColumnValue showDouble
      ⟨false, ⟨true, true⟩, true, ⟨true, 65⟩, true, ⟨true, 16⟩, true, ⟨true, 32⟩,
        true, ⟨true, 64⟩, false, ⟨true, 2⟩, true, ⟨true, "s"⟩⟩ = "65" := rfl
  refine ⟨rfl, rfl, h65, ?_, rfl, rfl, rfl, rfl, rfl, rfl, rfl, rfl⟩
  rw [h65]
  decide

/-- C9: for a char(N) column and a present value, the bulk columnar
appender, the single-value columnar appender and the legacy converter
all copy exactly N characters out of the fixed-width slot — trailing
padding included, no trimming — so the output text has length exactly
N and equals the first N slot characters. -/
theorem char_fixed_width_copy (env : RenderEnv) (slot : List Char)
    (len rowIdx db : Nat) (column : TColumn) (hlen : len ≤ slot.length) :
    (AddCharValues (fun _ => some (.vChar slot)) len [] [] 0 0 1).1 =
      [String.mk (slot.take len)] ∧
    (String.mk (slot.take len)).length = len ∧
    (ExprValueToHS2TColumn env (some (.vChar slot)) ⟨.CHAR, len, db⟩ rowIdx
        column).stringVal.values =
      column.stringVal.values ++ [String.mk (slot.take len)] ∧
    (ExprValueToHS2TColumnValue env (some (.vChar slot))
        ⟨.CHAR, len, db⟩).stringVal.value = String.mk (slot.take len) := by
  refine ⟨rfl, ?_, rfl, rfl⟩
  show (slot.take len).length = len
  simp [List.length_take]
  omega

/-- Witness for C9: a char(5) slot holding `ab` plus three spaces keeps
all five characters, padding included. -/
theorem char_fixed_width_copy_witness :
    (AddCharValues (fun _ => some (.vChar ['a', 'b', ' ', ' ', ' '])) 5 [] [] 0 0 1).1 =
      [String.mk (['a', 'b', ' ', ' ', ' '].take 5)] ∧
    (String.mk (['a', 'b', ' ', ' ', ' '].take 5)).length = 5 ∧
    String.mk (['a', 'b', ' ', ' ', ' '].take 5) = "ab   " := by
  have h := char_fixed_width_copy ⟨fun _ => "", fun _ _ => ""⟩ ['a', 'b', ' ', ' ', ' ']
    5 0 0 TColumn.empty (by decide)
  exact ⟨h.1, h.2.1, rfl⟩

/-- C7 counterexample: the pre-decoded legacy converter copies the
payload even when the value is absent. For a BOOLEAN source whose
`__isset` flag is clear but whose residual `bool_val` field holds
`true`, the output's presence flag is clear yet its payload field was
overwritten to `true` (a fresh record holds `false` there), so the
claim's payload-copied-only-when-present clause fails. -/
theorem legacy_payload_copied_when_absent :
    ({ TColumnValue.init with bool_val := true } : TColumnValue).isset_bool = false ∧
    (TColumnValueToHS2TColumnValue { TColumnValue.init with bool_val := true }
        ⟨.BOOLEAN, 0, 0⟩).boolVal.isset_value = false ∧
    (TColumnValueToHS2TColumnValue { TColumnValue.init with bool_val := true }
        ⟨.BOOLEAN, 0, 0⟩).boolVal.value = true ∧
    HS2TColumnValue.init.boolVal.value = false :=
  ⟨rfl, rfl, rfl, rfl⟩

/-- C7 amended: for every type descriptor with a family (`NULL_TYPE`
excluded) both legacy converters select exactly the family's variant
(decimal, timestamp, char and varchar collapse into the text variant,
float into the double variant) and set that variant's value-presence
flag from the presence of the source value. The ExprValue-based
converter copies the payload only when the value is present; the
TColumnValue-based converter copies the source's payload field
unconditionally for the non-text variants (also when the value is
absent) and guards only the text variant's copy on presence. -/
theorem legacy_converters_variant_discipline (env : RenderEnv) (ty : TTypeDesc)
    (t : VariantTag) (ht : familyVariant ty.ptype = some t)
    (value : Option EVal) (colVal : TColumnValue) :
    (∀ u, (ExprValueToHS2TColumnValue env value ty).flag u = (u == t)) ∧
    (ExprValueToHS2TColumnValue env value ty).presence t = value.isSome ∧
    (value = none →
      (ExprValueToHS2TColumnValue env value ty).payload t =
        HS2TColumnValue.init.payload t) ∧
    (∀ u, (TColumnValueToHS2TColumnValue colVal ty).flag u = (u == t)) ∧
    (TColumnValueToHS2TColumnValue colVal ty).presence t = colVal.srcPresence t ∧
    (t ≠ .stringT →
      (TColumnValueToHS2TColumnValue colVal ty).payload t = colVal.srcPayload t) ∧
    (t = .stringT → colVal.isset_string = false →
      (TColumnValueToHS2TColumnValue colVal ty).payload t =
        HS2TColumnValue.init.payload t) ∧
    (t = .stringT → colVal.isset_string = true →
      (TColumnValueToHS2TColumnValue colVal ty).payload t = colVal.srcPayload t) := by
  obtain ⟨pt, len, db⟩ := ty
  cases pt
  case NULL_TYPE => exact absurd ht (by simp [familyVariant])
  all_goals {
    obtain rfl : t = _ := (Option.some.inj ht).symm
    refine ⟨fun u => by cases u <;> rfl, rfl, fun hv => by subst hv; rfl,
      fun u => by cases u <;> rfl, rfl, ?_, ?_, ?_⟩
    · first
        | (intro _h ; rfl)
        | (intro h ; exact absurd rfl h)
    · first
        | (intro h ; exact absurd h (by decide))
        | (intro _h hs
           simp [TColumnValueToHS2TColumnValue, HS2TColumnValue.payload,
             HS2TColumnValue.init, hs])
    · first
        | (intro h ; exact absurd h (by decide))
        | (intro _h hs
           simp [TColumnValueToHS2TColumnValue, HS2TColumnValue.payload,
             TColumnValue.srcPayload, hs])
  }

theorem getD_map_lt (vals : List α) (f : α → β) (j : Nat) (dB : β) (dA : α)
    (hj : j < vals.length) :
    (vals.map f).getD j dB = f (vals.getD j dA) := by
  rw [List.getD_eq_getElem _ _ (by simpa using hj), List.getD_eq_getElem _ _ hj]
  simp

theorem getD_listResize_nil (n j : Nat) (d : α) :
    (listResize ([] : List α) n d).getD j d = d := by
  rw [getD_listResize]
  simp

/-- C2: for each type family, bulk-appending a contiguous range of `k`
values from a row batch through `ExprValuesToHS2TColumn` onto a fresh
column, where every other source value is null (odd positions null),
produces a value array of length `k` whose entries at the null
positions are the family's zero/empty placeholder, and a null bitmap
whose set bits are exactly the null positions. -/
theorem exprvalues_alternating_nulls (env : RenderEnv) (getVal : Nat → Option EVal)
    (pt : TPrimitiveType) (len db k : Nat)
    (hdec : pt = .DECIMAL → db = 4 ∨ db = 8 ∨ db = 16)
    (halt : ∀ i, (getVal i).isNone = (i % 2 == 1)) :
    (TColumn.famValues (columnVariant pt)
        (ExprValuesToHS2TColumn env getVal ⟨pt, len, db⟩ 0 0 k TColumn.empty)).length = k ∧
    (∀ j, j < k → j % 2 = 1 →
      (TColumn.famValues (columnVariant pt)
          (ExprValuesToHS2TColumn env getVal ⟨pt, len, db⟩ 0 0 k TColumn.empty)).getD j
          (.pi 99) = placeholderRepr (columnVariant pt)) ∧
    (∀ j, GetNullBit (TColumn.famNulls (columnVariant pt)
          (ExprValuesToHS2TColumn env getVal ⟨pt, len, db⟩ 0 0 k TColumn.empty)) j =
      (decide (j < k) && decide (j % 2 = 1))) := by
  have hisNone : ∀ j, (getVal j).isNone = decide (j % 2 = 1) := by
    intro j
    rw [halt j]
    by_cases h : j % 2 = 1 <;> simp [h]
  have hnone : ∀ j, j % 2 = 1 → getVal j = none := by
    intro j hj
    apply Option.isNone_iff_eq_none.mp
    rw [hisNone j, decide_eq_true hj]
  cases pt
  case NULL_TYPE =>
    obtain ⟨h1, h2, h3, h4⟩ := AddValues_spec getVal EVal.asBool (fun b => b) false false [] [] 0 0 k
    simp only [Nat.zero_add, Nat.sub_zero] at h1 h2 h3 h4
    refine ⟨?_, ?_, ?_⟩
    · show ((AddValues getVal EVal.asBool (fun b => b) false false [] [] 0 0 k).1.map PayloadV.pb).length = k
      rw [List.length_map, h1]
    · intro j hjk hodd
      show ((AddValues getVal EVal.asBool (fun b => b) false false [] [] 0 0 k).1.map PayloadV.pb).getD j (.pi 99) = _
      have hjlen : j < (AddValues getVal EVal.asBool (fun b => b) false false [] [] 0 0 k).1.length := by
        rw [h1]
        omega
      rw [getD_map_lt _ _ _ _ false hjlen, h2 j hjk, hnone j hodd]
      rfl
    · intro j
      show GetNullBit (AddValues getVal EVal.asBool (fun b => b) false false [] [] 0 0 k).2 j = _
      rw [h4 j, GetNullBit_SetNullsSize_nil, Bool.false_or]
      by_cases hjk : j < k
      · rw [decide_eq_true (show 0 ≤ j ∧ j < k by omega), decide_eq_true hjk,
          Bool.true_and, Bool.true_and, hisNone j]
      · rw [decide_eq_false (show ¬ (0 ≤ j ∧ j < k) by omega), decide_eq_false hjk]
        simp
  case BOOLEAN =>
    obtain ⟨h1, h2, h3, h4⟩ := AddValues_spec getVal EVal.asBool (fun b => b) false false [] [] 0 0 k
    simp only [Nat.zero_add, Nat.sub_zero] at h1 h2 h3 h4
    refine ⟨?_, ?_, ?_⟩
    · show ((AddValues getVal EVal.asBool (fun b => b) false false [] [] 0 0 k).1.map PayloadV.pb).length = k
      rw [List.length_map, h1]
    · intro j hjk hodd
      show ((AddValues getVal EVal.asBool (fun b => b) false false [] [] 0 0 k).1.map PayloadV.pb).getD j (.pi 99) = _
      have hjlen : j < (AddValues getVal EVal.asBool (fun b => b) false false [] [] 0 0 k).1.length := by
        rw [h1]
        omega
      rw [getD_map_lt _ _ _ _ false hjlen, h2 j hjk, hnone j hodd]
      rfl
    · intro j
      show GetNullBit (AddValues getVal EVal.asBool (fun b => b) false false [] [] 0 0 k).2 j = _
      rw [h4 j, GetNullBit_SetNullsSize_nil, Bool.false_or]
      by_cases hjk : j < k
      · rw [decide_eq_true (show 0 ≤ j ∧ j < k by omega), decide_eq_true hjk,
          Bool.true_and, Bool.true_and, hisNone j]
      · rw [decide_eq_false (show ¬ (0 ≤ j ∧ j < k) by omega), decide_eq_false hjk]
        simp
  case TINYINT =>
    obtain ⟨h1, h2, h3, h4⟩ := AddValues_spec getVal EVal.asI8 (fun n => n) 0 0 [] [] 0 0 k
    simp only [Nat.zero_add, Nat.sub_zero] at h1 h2 h3 h4
    refine ⟨?_, ?_, ?_⟩
    · show ((AddValues getVal EVal.asI8 (fun n => n) 0 0 [] [] 0 0 k).1.map PayloadV.pi).length = k
      rw [List.length_map, h1]
    · intro j hjk hodd
      show ((AddValues getVal EVal.asI8 (fun n => n) 0 0 [] [] 0 0 k).1.map PayloadV.pi).getD j (.pi 99) = _
      have hjlen : j < (AddValues getVal EVal.asI8 (fun n => n) 0 0 [] [] 0 0 k).1.length := by
        rw [h1]
        omega
      rw [getD_map_lt _ _ _ _ 0 hjlen, h2 j hjk, hnone j hodd]
      rfl
    · intro j
      show GetNullBit (AddValues getVal EVal.asI8 (fun n => n) 0 0 [] [] 0 0 k).2 j = _
      rw [h4 j, GetNullBit_SetNullsSize_nil, Bool.false_or]
      by_cases hjk : j < k
      · rw [decide_eq_true (show 0 ≤ j ∧ j < k by omega), decide_eq_true hjk,
          Bool.true_and, Bool.true_and, hisNone j]
      · rw [decide_eq_false (show ¬ (0 ≤ j ∧ j < k) by omega), decide_eq_false hjk]
        simp
  case SMALLINT =>
    obtain ⟨h1, h2, h3, h4⟩ := AddValues_spec getVal EVal.asI16 (fun n => n) 0 0 [] [] 0 0 k
    simp only [Nat.zero_add, Nat.sub_zero] at h1 h2 h3 h4
    refine ⟨?_, ?_, ?_⟩
    · show ((AddValues getVal EVal.asI16 (fun n => n) 0 0 [] [] 0 0 k).1.map PayloadV.pi).length = k
      rw [List.length_map, h1]
    · intro j hjk hodd
      show ((AddValues getVal EVal.asI16 (fun n => n) 0 0 [] [] 0 0 k).1.map PayloadV.pi).getD j (.pi 99) = _
      have hjlen : j < (AddValues getVal EVal.asI16 (fun n => n) 0 0 [] [] 0 0 k).1.length := by
        rw [h1]
        omega
      rw [getD_map_lt _ _ _ _ 0 hjlen, h2 j hjk, hnone j hodd]
      rfl
    · intro j
      show GetNullBit (AddValues getVal EVal.asI16 (fun n => n) 0 0 [] [] 0 0 k).2 j = _
      rw [h4 j, GetNullBit_SetNullsSize_nil, Bool.false_or]
      by_cases hjk : j < k
      · rw [decide_eq_true (show 0 ≤ j ∧ j < k by omega), decide_eq_true hjk,
          Bool.true_and, Bool.true_and, hisNone j]
      · rw [decide_eq_false (show ¬ (0 ≤ j ∧ j < k) by omega), decide_eq_false hjk]
        simp
  case INT =>
    obtain ⟨h1, h2, h3, h4⟩ := AddValues_spec getVal EVal.asI32 (fun n => n) 0 0 [] [] 0 0 k
    simp only [Nat.zero_add, Nat.sub_zero] at h1 h2 h3 h4
    refine ⟨?_, ?_, ?_⟩
    · show ((AddValues getVal EVal.asI32 (fun n => n) 0 0 [] [] 0 0 k).1.map PayloadV.pi).length = k
      rw [List.length_map, h1]
    · intro j hjk hodd
      show ((AddValues getVal EVal.asI32 (fun n => n) 0 0 [] [] 0 0 k).1.map PayloadV.pi).getD j (.pi 99) = _
      have hjlen : j < (AddValues getVal EVal.asI32 (fun n => n) 0 0 [] [] 0 0 k).1.length := by
        rw [h1]
        omega
      rw [getD_map_lt _ _ _ _ 0 hjlen, h2 j hjk, hnone j hodd]
      rfl
    · intro j
      show GetNullBit (AddValues getVal EVal.asI32 (fun n => n) 0 0 [] [] 0 0 k).2 j = _
      rw [h4 j, GetNullBit_SetNullsSize_nil, Bool.false_or]
      by_cases hjk : j < k
      · rw [decide_eq_true (show 0 ≤ j ∧ j < k by omega), decide_eq_true hjk,
          Bool.true_and, Bool.true_and, hisNone j]
      · rw [decide_eq_false (show ¬ (0 ≤ j ∧ j < k) by omega), decide_eq_false hjk]
        simp
  case BIGINT =>
    obtain ⟨h1, h2, h3, h4⟩ := AddValues_spec getVal EVal.asI64 (fun n => n) 0 0 [] [] 0 0 k
    simp only [Nat.zero_add, Nat.sub_zero] at h1 h2 h3 h4
    refine ⟨?_, ?_, ?_⟩
    · show ((AddValues getVal EVal.asI64 (fun n => n) 0 0 [] [] 0 0 k).1.map PayloadV.pi).length = k
      rw [List.length_map, h1]
    · intro j hjk hodd
      show ((AddValues getVal EVal.asI64 (fun n => n) 0 0 [] [] 0 0 k).1.map PayloadV.pi).getD j (.pi 99) = _
      have hjlen : j < (AddValues getVal EVal.asI64 (fun n => n) 0 0 [] [] 0 0 k).1.length := by
        rw [h1]
        omega
      rw [getD_map_lt _ _ _ _ 0 hjlen, h2 j hjk, hnone j hodd]
      rfl
    · intro j
      show GetNullBit (AddValues getVal EVal.asI64 (fun n => n) 0 0 [] [] 0 0 k).2 j = _
      rw [h4 j, GetNullBit_SetNullsSize_nil, Bool.false_or]
      by_cases hjk : j < k
      · rw [decide_eq_true (show 0 ≤ j ∧ j < k by omega), decide_eq_true hjk,
          Bool.true_and, Bool.true_and, hisNone j]
      · rw [decide_eq_false (show ¬ (0 ≤ j ∧ j < k) by omega), decide_eq_false hjk]
        simp
  case FLOAT =>
    obtain ⟨h1, h2, h3, h4⟩ := AddValues_spec getVal EVal.asF32 floatToDouble 0 0 [] [] 0 0 k
    simp only [Nat.zero_add, Nat.sub_zero] at h1 h2 h3 h4
    refine ⟨?_, ?_, ?_⟩
    · show ((AddValues getVal EVal.asF32 floatToDouble 0 0 [] [] 0 0 k).1.map PayloadV.pi).length = k
      rw [List.length_map, h1]
    · intro j hjk hodd
      show ((AddValues getVal EVal.asF32 floatToDouble 0 0 [] [] 0 0 k).1.map PayloadV.pi).getD j (.pi 99) = _
      have hjlen : j < (AddValues getVal EVal.asF32 floatToDouble 0 0 [] [] 0 0 k).1.length := by
        rw [h1]
        omega
      rw [getD_map_lt _ _ _ _ 0 hjlen, h2 j hjk, hnone j hodd]
      rfl
    · intro j
      show GetNullBit (AddValues getVal EVal.asF32 floatToDouble 0 0 [] [] 0 0 k).2 j = _
      rw [h4 j, GetNullBit_SetNullsSize_nil, Bool.false_or]
      by_cases hjk : j < k
      · rw [decide_eq_true (show 0 ≤ j ∧ j < k by omega), decide_eq_true hjk,
          Bool.true_and, Bool.true_and, hisNone j]
      · rw [decide_eq_false (show ¬ (0 ≤ j ∧ j < k) by omega), decide_eq_false hjk]
        simp
  case DOUBLE =>
    obtain ⟨h1, h2, h3, h4⟩ := AddValues_spec getVal EVal.asF64 (fun x => x) 0 0 [] [] 0 0 k
    simp only [Nat.zero_add, Nat.sub_zero] at h1 h2 h3 h4
    refine ⟨?_, ?_, ?_⟩
    · show ((AddValues getVal EVal.asF64 (fun x => x) 0 0 [] [] 0 0 k).1.map PayloadV.pi).length = k
      rw [List.length_map, h1]
    · intro j hjk hodd
      show ((AddValues getVal EVal.asF64 (fun x => x) 0 0 [] [] 0 0 k).1.map PayloadV.pi).getD j (.pi 99) = _
      have hjlen : j < (AddValues getVal EVal.asF64 (fun x => x) 0 0 [] [] 0 0 k).1.length := by
        rw [h1]
        omega
      rw [getD_map_lt _ _ _ _ 0 hjlen, h2 j hjk, hnone j hodd]
      rfl
    · intro j
      show GetNullBit (AddValues getVal EVal.asF64 (fun x => x) 0 0 [] [] 0 0 k).2 j = _
      rw [h4 j, GetNullBit_SetNullsSize_nil, Bool.false_or]
      by_cases hjk : j < k
      · rw [decide_eq_true (show 0 ≤ j ∧ j < k by omega), decide_eq_true hjk,
          Bool.true_and, Bool.true_and, hisNone j]
      · rw [decide_eq_false (show ¬ (0 ≤ j ∧ j < k) by omega), decide_eq_false hjk]
        simp
  case TIMESTAMP =>
    obtain ⟨h1, h2, h3, h4⟩ := AddTimestampValues_spec getVal env.tsFmt [] [] 0 0 k
    simp only [Nat.zero_add, Nat.sub_zero] at h1 h2 h3 h4
    refine ⟨?_, ?_, ?_⟩
    · show ((AddTimestampValues getVal env.tsFmt [] [] 0 0 k).1.map PayloadV.ps).length = k
      rw [List.length_map, h1]
    · intro j hjk hodd
      show ((AddTimestampValues getVal env.tsFmt [] [] 0 0 k).1.map PayloadV.ps).getD j (.pi 99) = _
      have hjlen : j < (AddTimestampValues getVal env.tsFmt [] [] 0 0 k).1.length := by
        rw [h1]
        omega
      rw [getD_map_lt _ _ _ _ "" hjlen, h2 j hjk, hnone j hodd]
      show PayloadV.ps ((listResize ([] : List String) k "").getD j "") = _
      rw [getD_listResize_nil]
      rfl
    · intro j
      show GetNullBit (AddTimestampValues getVal env.tsFmt [] [] 0 0 k).2 j = _
      rw [h4 j, GetNullBit_SetNullsSize_nil, Bool.false_or]
      by_cases hjk : j < k
      · rw [decide_eq_true (show 0 ≤ j ∧ j < k by omega), decide_eq_true hjk,
          Bool.true_and, Bool.true_and, hisNone j]
      · rw [decide_eq_false (show ¬ (0 ≤ j ∧ j < k) by omega), decide_eq_false hjk]
        simp
  case STRING =>
    obtain ⟨h1, h2, h3, h4⟩ := AddStringValues_spec getVal [] [] 0 0 k
    simp only [Nat.zero_add, Nat.sub_zero] at h1 h2 h3 h4
    refine ⟨?_, ?_, ?_⟩
    · show ((AddStringValues getVal [] [] 0 0 k).1.map PayloadV.ps).length = k
      rw [List.length_map, h1]
    · intro j hjk hodd
      show ((AddStringValues getVal [] [] 0 0 k).1.map PayloadV.ps).getD j (.pi 99) = _
      have hjlen : j < (AddStringValues getVal [] [] 0 0 k).1.length := by
        rw [h1]
        omega
      rw [getD_map_lt _ _ _ _ "" hjlen, h2 j hjk, hnone j hodd]
      show PayloadV.ps ((listResize ([] : List String) k "").getD j "") = _
      rw [getD_listResize_nil]
      rfl
    · intro j
      show GetNullBit (AddStringValues getVal [] [] 0 0 k).2 j = _
      rw [h4 j, GetNullBit_SetNullsSize_nil, Bool.false_or]
      by_cases hjk : j < k
      · rw [decide_eq_true (show 0 ≤ j ∧ j < k by omega), decide_eq_true hjk,
          Bool.true_and, Bool.true_and, hisNone j]
      · rw [decide_eq_false (show ¬ (0 ≤ j ∧ j < k) by omega), decide_eq_false hjk]
        simp
  case VARCHAR =>
    obtain ⟨h1, h2, h3, h4⟩ := AddStringValues_spec getVal [] [] 0 0 k
    simp only [Nat.zero_add, Nat.sub_zero] at h1 h2 h3 h4
    refine ⟨?_, ?_, ?_⟩
    · show ((AddStringValues getVal [] [] 0 0 k).1.map PayloadV.ps).length = k
      rw [List.length_map, h1]
    · intro j hjk hodd
      show ((AddStringValues getVal [] [] 0 0 k).1.map PayloadV.ps).getD j (.pi 99) = _
      have hjlen : j < (AddStringValues getVal [] [] 0 0 k).1.length := by
        rw [h1]
        omega
      rw [getD_map_lt _ _ _ _ "" hjlen, h2 j hjk, hnone j hodd]
      show PayloadV.ps ((listResize ([] : List String) k "").getD j "") = _
      rw [getD_listResize_nil]
      rfl
    · intro j
      show GetNullBit (AddStringValues getVal [] [] 0 0 k).2 j = _
      rw [h4 j, GetNullBit_SetNullsSize_nil, Bool.false_or]
      by_cases hjk : j < k
      · rw [decide_eq_true (show 0 ≤ j ∧ j < k by omega), decide_eq_true hjk,
          Bool.true_and, Bool.true_and, hisNone j]
      · rw [decide_eq_false (show ¬ (0 ≤ j ∧ j < k) by omega), decide_eq_false hjk]
        simp
  case CHAR =>
    obtain ⟨h1, h2, h3, h4⟩ := AddCharValues_spec getVal len [] [] 0 0 k
    simp only [Nat.zero_add, Nat.sub_zero] at h1 h2 h3 h4
    refine ⟨?_, ?_, ?_⟩
    · show ((AddCharValues getVal len [] [] 0 0 k).1.map PayloadV.ps).length = k
      rw [List.length_map, h1]
    · intro j hjk hodd
      show ((AddCharValues getVal len [] [] 0 0 k).1.map PayloadV.ps).getD j (.pi 99) = _
      have hjlen : j < (AddCharValues getVal len [] [] 0 0 k).1.length := by
        rw [h1]
        omega
      rw [getD_map_lt _ _ _ _ "" hjlen, h2 j hjk, hnone j hodd]
      show PayloadV.ps ((listResize ([] : List String) k "").getD j "") = _
      rw [getD_listResize_nil]
      rfl
    · intro j
      show GetNullBit (AddCharValues getVal len [] [] 0 0 k).2 j = _
      rw [h4 j, GetNullBit_SetNullsSize_nil, Bool.false_or]
      by_cases hjk : j < k
      · rw [decide_eq_true (show 0 ≤ j ∧ j < k by omega), decide_eq_true hjk,
          Bool.true_and, Bool.true_and, hisNone j]
      · rw [decide_eq_false (show ¬ (0 ≤ j ∧ j < k) by omega), decide_eq_false hjk]
        simp
  case DECIMAL =>
    rcases hdec rfl with hw | hw | hw <;> subst hw
    · obtain ⟨h1, h2, h3, h4⟩ := AddDecimalValues_spec getVal (env.decFmt 4) [] [] 0 0 k
      simp only [Nat.zero_add, Nat.sub_zero] at h1 h2 h3 h4
      refine ⟨?_, ?_, ?_⟩
      · show ((AddDecimalValues getVal (env.decFmt 4) [] [] 0 0 k).1.map PayloadV.ps).length = k
        rw [List.length_map, h1]
      · intro j hjk hodd
        show ((AddDecimalValues getVal (env.decFmt 4) [] [] 0 0 k).1.map PayloadV.ps).getD j (.pi 99) = _
        have hjlen : j < (AddDecimalValues getVal (env.decFmt 4) [] [] 0 0 k).1.length := by
          rw [h1]
          omega
        rw [getD_map_lt _ _ _ _ "" hjlen, h2 j hjk, hnone j hodd]
        rfl
      · intro j
        show GetNullBit (AddDecimalValues getVal (env.decFmt 4) [] [] 0 0 k).2 j = _
        rw [h4 j, GetNullBit_SetNullsSize_nil, Bool.false_or]
        by_cases hjk : j < k
        · rw [decide_eq_true (show 0 ≤ j ∧ j < k by omega), decide_eq_true hjk,
            Bool.true_and, Bool.true_and, hisNone j]
        · rw [decide_eq_false (show ¬ (0 ≤ j ∧ j < k) by omega), decide_eq_false hjk]
          simp
    · obtain ⟨h1, h2, h3, h4⟩ := AddDecimalValues_spec getVal (env.decFmt 8) [] [] 0 0 k
      simp only [Nat.zero_add, Nat.sub_zero] at h1 h2 h3 h4
      refine ⟨?_, ?_, ?_⟩
      · show ((AddDecimalValues getVal (env.decFmt 8) [] [] 0 0 k).1.map PayloadV.ps).length = k
        rw [List.length_map, h1]
      · intro j hjk hodd
        show ((AddDecimalValues getVal (env.decFmt 8) [] [] 0 0 k).1.map PayloadV.ps).getD j (.pi 99) = _
        have hjlen : j < (AddDecimalValues getVal (env.decFmt 8) [] [] 0 0 k).1.length := by
          rw [h1]
          omega
        rw [getD_map_lt _ _ _ _ "" hjlen, h2 j hjk, hnone j hodd]
        rfl
      · intro j
        show GetNullBit (AddDecimalValues getVal (env.decFmt 8) [] [] 0 0 k).2 j = _
        rw [h4 j, GetNullBit_SetNullsSize_nil, Bool.false_or]
        by_cases hjk : j < k
        · rw [decide_eq_true (show 0 ≤ j ∧ j < k by omega), decide_eq_true hjk,
            Bool.true_and, Bool.true_and, hisNone j]
        · rw [decide_eq_false (show ¬ (0 ≤ j ∧ j < k) by omega), decide_eq_false hjk]
          simp
    · obtain ⟨h1, h2, h3, h4⟩ := AddDecimalValues_spec getVal (env.decFmt 16) [] [] 0 0 k
      simp only [Nat.zero_add, Nat.sub_zero] at h1 h2 h3 h4
      refine ⟨?_, ?_, ?_⟩
      · show ((AddDecimalValues getVal (env.decFmt 16) [] [] 0 0 k).1.map PayloadV.ps).length = k
        rw [List.length_map, h1]
      · intro j hjk hodd
        show ((AddDecimalValues getVal (env.decFmt 16) [] [] 0 0 k).1.map PayloadV.ps).getD j (.pi 99) = _
        have hjlen : j < (AddDecimalValues getVal (env.decFmt 16) [] [] 0 0 k).1.length := by
          rw [h1]
          omega
        rw [getD_map_lt _ _ _ _ "" hjlen, h2 j hjk, hnone j hodd]
        rfl
      · intro j
        show GetNullBit (AddDecimalValues getVal (env.decFmt 16) [] [] 0 0 k).2 j = _
        rw [h4 j, GetNullBit_SetNullsSize_nil, Bool.false_or]
        by_cases hjk : j < k
        · rw [decide_eq_true (show 0 ≤ j ∧ j < k by omega), decide_eq_true hjk,
            Bool.true_and, Bool.true_and, hisNone j]
        · rw [decide_eq_false (show ¬ (0 ≤ j ∧ j < k) by omega), decide_eq_false hjk]
          simp

/-- Witness for C2: an INT column of five values whose odd rows are
null yields five entries, a zero placeholder at row 1, a set bit at
row 3 and a clear bit at row 2. -/
theorem exprvalues_alternating_nulls_witness :
    (TColumn.famValues (columnVariant .INT)
        (ExprValuesToHS2TColumn ⟨fun _ => "", fun _ _ => ""⟩
          (fun i => if i % 2 == 1 then none else some (.vI32 7)) ⟨.INT, 0, 0⟩ 0 0 5
          TColumn.empty)).length = 5 ∧
    (TColumn.famValues (columnVariant .INT)
        (ExprValuesToHS2TColumn ⟨fun _ => "", fun _ _ => ""⟩
          (fun i => if i % 2 == 1 then none else some (.vI32 7)) ⟨.INT, 0, 0⟩ 0 0 5
          TColumn.empty)).getD 1 (.pi 99) = placeholderRepr (columnVariant .INT) ∧
    GetNullBit (TColumn.famNulls (columnVariant .INT)
        (ExprValuesToHS2TColumn ⟨fun _ => "", fun _ _ => ""⟩
          (fun i => if i % 2 == 1 then none else some (.vI32 7)) ⟨.INT, 0, 0⟩ 0 0 5
          TColumn.empty)) 3 = true ∧
    GetNullBit (TColumn.famNulls (columnVariant .INT)
        (ExprValuesToHS2TColumn ⟨fun _ => "", fun _ _ => ""⟩
          (fun i => if i % 2 == 1 then none else some (.vI32 7)) ⟨.INT, 0, 0⟩ 0 0 5
          TColumn.empty)) 2 = false := by
  obtain ⟨h1, h2, h3⟩ := exprvalues_alternating_nulls ⟨fun _ => "", fun _ _ => ""⟩
    (fun i => if i % 2 == 1 then none else some (.vI32 7)) .INT 0 0 5
    (fun h => nomatch h)
    (fun i => by by_cases h : i % 2 = 1 <;> simp [h])
  exact ⟨h1, h2 1 (by decide) (by decide), by rw [h3 3]; decide, by rw [h3 2]; decide⟩

/-- Witness for C7 amended at a BOOLEAN descriptor and an absent value:
the boolean variant is selected, its presence flag is clear and its
payload is untouched; the pre-decoded converter mirrors the source's
flag and copies the residual payload field. -/
theorem legacy_converters_variant_discipline_witness :
    (ExprValueToHS2TColumnValue ⟨fun _ => "", fun _ _ => ""⟩ none
        ⟨.BOOLEAN, 0, 0⟩).flag .boolT = true ∧
    (ExprValueToHS2TColumnValue ⟨fun _ => "", fun _ _ => ""⟩ none
        ⟨.BOOLEAN, 0, 0⟩).flag .stringT = false ∧
    (ExprValueToHS2TColumnValue ⟨fun _ => "", fun _ _ => ""⟩ none
        ⟨.BOOLEAN, 0, 0⟩).presence .boolT = false ∧
    (ExprValueToHS2TColumnValue ⟨fun _ => "", fun _ _ => ""⟩ none
        ⟨.BOOLEAN, 0, 0⟩).payload .boolT = HS2TColumnValue.init.payload .boolT ∧
    (TColumnValueToHS2TColumnValue { TColumnValue.init with bool_val := true }
        ⟨.BOOLEAN, 0, 0⟩).payload .boolT =
      TColumnValue.srcPayload .boolT { TColumnValue.init with bool_val := true } := by
  obtain ⟨hf, hp, hpay, _, _, hcopy, _, _⟩ :=
    legacy_converters_variant_discipline ⟨fun _ => "", fun _ _ => ""⟩
      ⟨.BOOLEAN, 0, 0⟩ .boolT rfl none { TColumnValue.init with bool_val := true }
  refine ⟨?_, ?_, ?_, hpay rfl, hcopy (by decide)⟩
  · rw [hf .boolT]
    rfl
  · rw [hf .stringT]
    rfl
  · rw [hp]
    rfl
